import Mathlib

/-! # DTMeantimerPatternReco: a verification development

Shallow embedding of `RecoLocalMuon/DTSegment/src/DTMeantimerPatternReco.cc`
(the drift-tube pattern recognition) and proofs about it.

Conventions of the embedding.

* C++ `int` fields of a wire identifier (super-layer, layer, wire) are unpacked
  from small bit-fields of a packed detector id, so no arithmetic on them can
  overflow; they are embedded as `Int`.
* `size_t` and `unsigned int` arithmetic that can wrap around is embedded on
  `Nat` with an explicit reduction modulo `2 ^ 64` resp. `2 ^ 32`.
* A finite `double` value is embedded as the rational it denotes, so
  comparisons are the exact ones; the results of the double operations the
  source performs (a division, a subtraction, a conversion from `size_t`) are
  rounded to the nearest double, ties to even, by `roundDouble`. NaN and
  infinities are not represented.
* A `std::shared_ptr<DTHitPairForFit>` is embedded as the pointed-to record
  together with its address `ptr`; comparing two shared pointers compares `ptr`.
* By-reference parameters and the member variable `maxfound` are threaded
  explicitly through the functions that can write them.
* The external collaborators (updator fit, geometry, cleaner) are functions
  collected in `Env`; every theorem quantifies over them.
-/

namespace DTMeantimer

/-! ## Data model -/

/-- Wire identifier: super-layer index, layer index inside the super-layer, wire number. -/
structure DTWireId where
  superLayer : Int
  layer : Int
  wire : Int
deriving DecidableEq, Repr

/-- Left/right ambiguity of a hit. -/
inductive DTCellSide where
  | Left
  | Right
deriving DecidableEq, Repr

/-- Hit-for-fit: `ptr` is the address held by the shared pointer (object
identity), `id` the wire identifier returned by `id()`. -/
structure DTHitPairForFit where
  ptr : Nat
  id : DTWireId
deriving DecidableEq, Repr

/-- Association point `DTSegmentCand::AssPoint`: a (hit, side) pair. -/
abbrev AssPoint := DTHitPairForFit × DTCellSide

/-- Raw hit pair handed to `reconstruct`; only its wire identifier is used here. -/
structure DTRecHit1DPair where
  wireId : DTWireId
deriving DecidableEq, Repr

/-- Super-layer context; `superlayer` is `sl->id().superlayer()`. -/
structure DTSuperLayer where
  superlayer : Int
deriving DecidableEq, Repr

/-- Modelled from the spec: what the external updator fit leaves in a candidate
(`DTSegmentUpdator::fit` is not part of the sources). The spec says the fit
"mutates the candidate in place, setting chi-square (−1 on failure) and,
depending on model, a time offset"; `chi2ndof` and `good` are the values the
accessors `chi2ndof()` and `good()` of the fitted candidate report. -/
structure FitOutcome where
  chi2 : ℚ
  t0 : ℚ
  chi2ndof : ℚ
  good : Bool
deriving DecidableEq, Repr

/-- Modelled from the spec: the class `DTSegmentCand` (its header and
implementation are not part of the sources). A candidate is its
association-point set `theHits` and the fitted quantities. -/
structure DTSegmentCand where
  theHits : List AssPoint
  fit : FitOutcome
deriving DecidableEq, Repr

/-- Finished segment produced from a surviving candidate by the external updator. -/
structure DTSLRecSegment2D where
  hits : List AssPoint
  chi2 : ℚ
  t0 : ℚ
deriving DecidableEq, Repr

/-- Configuration and external collaborators of one `DTMeantimerPatternReco`. -/
structure Env where
  theMaxAllowedHits : Nat
  theAlphaMaxTheta : ℚ
  theAlphaMaxPhi : ℚ
  theMaxChi2 : ℚ
  /-- External: `theUpdator->fit(seg, 1, fitdebug)` on the candidate built from a point set. -/
  fit : DTSuperLayer → List AssPoint → FitOutcome
  /-- External geometry: the value `fabs(gvec.theta() - gvecIP.theta())` for a seed pair. -/
  DAlpha : DTSuperLayer → DTHitPairForFit → DTCellSide → DTHitPairForFit → DTCellSide → ℚ
  /-- External: `theCleaner->clean`. -/
  clean : List DTSegmentCand → List DTSegmentCand
  /-- External: conversion of a candidate to a segment followed by `theUpdator->update`. -/
  update : DTSegmentCand → DTSLRecSegment2D

/-! ## Geometry compatibility filter -/

/-- The table `layerLowerCut[4]`. -/
def layerLowerCut : List Int := [0, -1, -2, -2]

/-- The table `layerUpperCut[4]`. -/
def layerUpperCut : List Int := [0, 2, 2, 3]

/-- Embedding of `DTMeantimerPatternReco::geometryFilter`. -/
def geometryFilter (first second : DTWireId) : Bool :=
  if first.superLayer ≠ second.superLayer then true
  else
    let deltaLayer : Nat := (first.layer - second.layer).natAbs
    if deltaLayer = 0 then false
    else if deltaLayer > 3 then false
    else
      let deltaWire : Int := first.wire - second.wire
      let deltaWire : Int := if Int.tmod second.layer 2 = 0 then -deltaWire else deltaWire
      if deltaWire ≤ layerLowerCut.getD deltaLayer 0 ∨ deltaWire ≥ layerUpperCut.getD deltaLayer 0
      then false
      else true

/-- Reference definition of the geometry filter, following the words of the
specification (used only to compare with `geometryFilter`). -/
def geometryFilterSpec (first second : DTWireId) : Bool :=
  if first.superLayer ≠ second.superLayer then true
  else
    let d : Int := |first.layer - second.layer|
    if d = 0 ∨ d > 3 then false
    else
      let s : Int := if second.layer % 2 = 0 then -(first.wire - second.wire)
                     else first.wire - second.wire
      let lower : Int := if d = 1 then -1 else -2
      let upper : Int := if d = 3 then 3 else 2
      decide (lower < s ∧ s < upper)

/-! ## Double arithmetic -/

/-- Rounding of a rational to the nearest integer, ties to the even one. -/
def roundHalfEven (y : ℚ) : ℤ :=
  if y - ⌊y⌋ < 1 / 2 then ⌊y⌋
  else if 1 / 2 < y - ⌊y⌋ then ⌊y⌋ + 1
  else if ⌊y⌋ % 2 = 0 then ⌊y⌋ else ⌊y⌋ + 1

/-- The binary exponent of the binade of a positive value: the largest `e`
with `2 ^ e ≤ x`, and `-1022` throughout the subnormal range. -/
def binadeExp (x : ℚ) : ℤ := max (Int.log 2 x) (-1022)

/-- The spacing of the doubles (53 significant bits) in the binade of `x`. -/
def ulpAt (x : ℚ) : ℚ := (2 : ℚ) ^ (binadeExp x - 52)

/-- The double nearest to a non-negative rational, ties to even. -/
def roundDoubleNonneg (x : ℚ) : ℚ := (roundHalfEven (x / ulpAt x) : ℚ) * ulpAt x

/-- The double nearest to a rational, ties to even (IEEE 754 binary64,
round-to-nearest): the value a double operation returns for an exact result
`x` within the range of the doubles. -/
def roundDouble (x : ℚ) : ℚ :=
  if 0 ≤ x then roundDoubleNonneg x else -roundDoubleNonneg (-x)

/-- A rational that is the value of a double. -/
def IsDouble (x : ℚ) : Prop := roundDouble x = x

/-- The double division `a / b`. -/
def divDouble (a b : ℚ) : ℚ := roundDouble (a / b)

/-- The double subtraction `a - b`. -/
def subDouble (a b : ℚ) : ℚ := roundDouble (a - b)

/-- The conversion of a `size_t` value to `double`. -/
def sizeToDouble (n : Nat) : ℚ := roundDouble (n : ℚ)

/-- The double literal `0.1`. -/
def tenthDouble : ℚ := 3602879701896397 / 36028797018963968

/-! ## Candidate fit gate -/

/-- Modelled from the spec: insertion into the association-point set
`DTSegmentCand::AssPointCont` (declared in the missing class header). The spec
says the set is "keyed by unique hit identity" and that "inserting a
duplicate-keyed point must be idempotent/first-wins". -/
def AssPointCont.insert (s : List AssPoint) (p : AssPoint) : List AssPoint :=
  if s.any (fun q => q.1.ptr == p.1.ptr) then s else s ++ [p]

/-- Range insertion `pointsSet.insert(assHits.begin(), assHits.end())`. -/
def AssPointCont.insertRange (s : List AssPoint) (ps : List AssPoint) : List AssPoint :=
  ps.foldl AssPointCont.insert s

/-- The `size_t` expression `assHits.size() - 3`, which wraps around below 3. -/
def sizeMinus3 (n : Nat) : Nat := (n + 2 ^ 64 - 3) % 2 ^ 64

/-- What `fitWithT0` hands back: the returned pointer (`none` for `nullptr`)
and the two output parameters `chi2` and `t0_corr`. -/
structure FitGate where
  seg : Option DTSegmentCand
  chi2 : ℚ
  t0_corr : ℚ
deriving DecidableEq, Repr

/-- Embedding of `DTMeantimerPatternReco::fitWithT0`. The association sequence is a
`const` reference, so it is an input only. In `chi2/(assHits.size()-3)` the
`size_t` difference is converted to `double` and the division is the double
division. -/
def fitWithT0 (env : Env) (sl : DTSuperLayer) (assHits : List AssPoint) : FitGate :=
  let pointsSet := AssPointCont.insertRange [] assHits
  let seg : DTSegmentCand := { theHits := pointsSet, fit := env.fit sl pointsSet }
  let chi2 := seg.fit.chi2
  let t0_corr := seg.fit.t0
  let ret : Option DTSegmentCand :=
    if chi2 = -1 then none
    else if assHits.length = 3 then some seg
    else if t0_corr = 0 then (if chi2 < 200 then some seg else none)
    else if divDouble chi2 (sizeToDouble (sizeMinus3 assHits.length)) < env.theMaxChi2
      then some seg
    else none
  { seg := ret, chi2 := chi2, t0_corr := t0_corr }

/-! ## Double-candidate filter -/

/-- Modelled from the spec: `DTSegmentCand::nHits`, the "derived hit count" of
the association-point set (declared `unsigned int` in the missing header). -/
def DTSegmentCand.nHits (c : DTSegmentCand) : Nat := c.theHits.length

/-- Modelled from the spec: `DTSegmentCand::chi2ndof`, the fit-quality
statistic per degree of freedom reported by the fitted candidate. -/
def DTSegmentCand.chi2ndof (c : DTSegmentCand) : ℚ := c.fit.chi2ndof

/-- Modelled from the spec: `DTSegmentCand::good`. -/
def DTSegmentCand.good (c : DTSegmentCand) : Bool := c.fit.good

/-- Two association points are the same point: same hit object, same side. -/
def samePoint (p q : AssPoint) : Bool := p.1.ptr == q.1.ptr && p.2 == q.2

/-- Modelled from the spec: `DTSegmentCand::operator==`, which the spec
describes as "set-equal to it (identical association points+sides)". -/
def DTSegmentCand.setEqual (c seg : DTSegmentCand) : Bool :=
  c.theHits.all (fun p => seg.theHits.any (samePoint p)) &&
  seg.theHits.all (fun q => c.theHits.any (samePoint q))

/-- Modelled from the spec: `DTSegmentCand::nSharedHitPairs`, the number of
hit pairs (hits, whatever their side) of `c` that also belong to `seg`. -/
def DTSegmentCand.nSharedHitPairs (c seg : DTSegmentCand) : Int :=
  ((c.theHits.filter (fun p => seg.theHits.any (fun q => q.1.ptr == p.1.ptr))).length : Int)

/-- The expression `int(seg->nHits()-2)`: unsigned 32-bit subtraction, then
conversion to a signed 32-bit integer. -/
def intOfNHitsMinus2 (n : Nat) : Int :=
  let u : Nat := (n + 2 ^ 32 - 2) % 2 ^ 32
  if u < 2 ^ 31 then (u : Int) else (u : Int) - 2 ^ 32

/-- The loop of `checkDoubleCandidates`: `false` as soon as one accepted
candidate equals or dominates `seg`, `true` when the loop runs to its end. -/
def checkDoubleCandidatesLoop (seg : DTSegmentCand) : List DTSegmentCand → Bool
  | [] => true
  | cand :: rest =>
    if cand.setEqual seg then false
    else if cand.nHits ≥ seg.nHits ∧ cand.chi2ndof < seg.chi2ndof
            ∧ cand.nSharedHitPairs seg > intOfNHitsMinus2 seg.nHits then false
    else checkDoubleCandidatesLoop seg rest

/-- Embedding of `DTMeantimerPatternReco::checkDoubleCandidates`. The list is a non-`const`
reference parameter: the second component is the list when the call returns. -/
def checkDoubleCandidates (cands : List DTSegmentCand) (seg : DTSegmentCand) :
    Bool × List DTSegmentCand :=
  (checkDoubleCandidatesLoop seg cands, cands)

/-! ## Recursive segment builder -/

/-- The state the recursive search reads and writes: the association sequence
`assHits` (a reference parameter used as a stack), the member `maxfound` and
the output list `result` (a reference parameter). -/
structure SearchState where
  assHits : List AssPoint
  maxfound : Nat
  result : List DTSegmentCand
deriving DecidableEq, Repr

/-- The call `assHits.push_back(p)`. -/
def SearchState.push (s : SearchState) (p : AssPoint) : SearchState :=
  { s with assHits := s.assHits ++ [p] }

/-- The call `assHits.pop_back()`. -/
def SearchState.pop (s : SearchState) : SearchState :=
  { s with assHits := s.assHits.dropLast }

/-- The pool for the next search: the hits after `hit` that pass the geometry
filter against `hit`, reversed. -/
def nextPool (hit : DTHitPairForFit) (rest : List DTHitPairForFit) : List DTHitPairForFit :=
  (rest.filter (fun tmpHit => geometryFilter tmpHit.id hit.id)).reverse

/-- The left/right choice of `addHits`: from the two gate verdicts and
chi-squares, the verdicts after the arbitration that applies when the
association sequence holds more than 3 points. The differences `chi2r-0.1`
and `chi2l-0.1` are double subtractions of the double literal `0.1`. -/
def chooseSides (size : Nat) (left_ok right_ok : Bool) (chi2l chi2r : ℚ) : Bool × Bool :=
  if size > 3 ∧ left_ok = true ∧ right_ok = true then
    if chi2l < subDouble chi2r tenthDouble then (left_ok, false)
    else if chi2r < subDouble chi2l tenthDouble then (false, right_ok)
    else (left_ok, right_ok)
  else (left_ok, right_ok)

/-- The loop of `addHits` over the remaining hits, from the position of the
iterator `hit` to the end of the pool. `recur` stands for the recursive call
of `addHits`; the Boolean is the local `foundSomething`. -/
def addHitsLoop (env : Env) (sl : DTSuperLayer)
    (recur : List DTHitPairForFit → SearchState → SearchState) :
    List DTHitPairForFit → SearchState → Bool → SearchState × Bool
  | [], s, foundSomething => (s, foundSomething)
  | hit :: rest, s, foundSomething =>
    let sL := s.push (hit, DTCellSide.Left)
    let left_seg := fitWithT0 env sl sL.assHits
    let s := sL.pop
    let sR := s.push (hit, DTCellSide.Right)
    let right_seg := fitWithT0 env sl sR.assHits
    let s := sR.pop
    let left_ok := left_seg.seg.isSome
    let right_ok := right_seg.seg.isSome
    if left_ok = false ∧ right_ok = false then addHitsLoop env sl recur rest s foundSomething
    else
      let hitsForFit := nextPool hit rest
      let sides := chooseSides s.assHits.length left_ok right_ok left_seg.chi2 right_seg.chi2
      let s := if sides.1 = true then (recur hitsForFit (s.push (hit, DTCellSide.Left))).pop else s
      let s := if sides.2 = true then (recur hitsForFit (s.push (hit, DTCellSide.Right))).pop else s
      addHitsLoop env sl recur rest s true

/-- The end of `addHits`, reached when no hit of the pool passed the gate:
check and store the candidate. -/
def addHitsLeaf (env : Env) (sl : DTSuperLayer) (s : SearchState) : SearchState :=
  if s.assHits.length < s.maxfound then s
  else
    match (fitWithT0 env sl s.assHits).seg with
    | none => s
    | some seg =>
      if seg.good = false then s
      else
        let s := if s.assHits.length > s.maxfound then { s with maxfound := s.assHits.length } else s
        let chk := checkDoubleCandidates s.result seg
        if chk.1 = true then { s with result := chk.2 ++ [seg] }
        else { s with result := chk.2 }

/-- Embedding of `DTMeantimerPatternReco::addHits` with a bound on the recursion depth:
`fuel` nested calls are available. -/
def addHitsAux (env : Env) (sl : DTSuperLayer) :
    Nat → List DTHitPairForFit → SearchState → SearchState
  | 0, _, s => s
  | fuel + 1, hits, s =>
    if s.assHits.length + hits.length < s.maxfound then s
    else
      let r := addHitsLoop env sl (addHitsAux env sl fuel) hits s false
      if r.2 = true then r.1 else addHitsLeaf env sl r.1

/-- Embedding of `DTMeantimerPatternReco::addHits`: every recursive call receives a strictly
shorter pool, so `hits.length + 1` nested calls always suffice. -/
def addHits (env : Env) (sl : DTSuperLayer) (hits : List DTHitPairForFit)
    (s : SearchState) : SearchState :=
  addHitsAux env sl (hits.length + 1) hits s

/-! ## Top-level orchestrator -/

/-- What the seed loops of `buildSegments` read and write: the member
`maxfound` and the local list `result`. -/
structure BuildState where
  maxfound : Nat
  result : List DTSegmentCand
deriving DecidableEq, Repr

/-- The array `codes`. -/
def codes : List DTCellSide := [DTCellSide.Left, DTCellSide.Right]

/-- Body of the two innermost loops of `buildSegments` for one pair of sides. -/
def seedSides (env : Env) (sl : DTSuperLayer) (DAlphaMax : ℚ)
    (firstHit lastHit : DTHitPairForFit) (hitsForFit : List DTHitPairForFit)
    (st : BuildState) (firstLR lastLR : DTCellSide) : BuildState :=
  if env.DAlpha sl firstHit firstLR lastHit lastLR > DAlphaMax then st
  else
    let assHits : List AssPoint := [(firstHit, firstLR), (lastHit, lastLR)]
    let s := addHits env sl hitsForFit { assHits := assHits, maxfound := 3, result := st.result }
    { maxfound := s.maxfound, result := s.result }

/-- The pool of a seed pair: the hits strictly between the two seed hits that
pass the geometry filter against both. `after` is the hit list from
`firstHit + 1` on. -/
def seedPool (firstHit lastHit : DTHitPairForFit) (after : List DTHitPairForFit) :
    List DTHitPairForFit :=
  (after.takeWhile (fun tmpHit => tmpHit.ptr != lastHit.ptr)).filter
    (fun tmpHit => geometryFilter tmpHit.id lastHit.id && geometryFilter tmpHit.id firstHit.id)

/-- Body of the `lastHit` loop of `buildSegments` for one seed pair. -/
def seedPair (env : Env) (sl : DTSuperLayer) (DAlphaMax : ℚ)
    (firstHit : DTHitPairForFit) (after : List DTHitPairForFit)
    (st : BuildState) (lastHit : DTHitPairForFit) : BuildState :=
  if geometryFilter firstHit.id lastHit.id = false then st
  else
    let hitsForFit := seedPool firstHit lastHit after
    codes.foldl (fun st firstLR =>
      codes.foldl (fun st lastLR =>
        seedSides env sl DAlphaMax firstHit lastHit hitsForFit st firstLR lastLR) st) st

/-- The `lastHit` loop: the reverse iterator runs from the last hit down to
the first position holding the same pointer as `firstHit`. -/
def lastHitLoop (env : Env) (sl : DTSuperLayer) (DAlphaMax : ℚ)
    (hits : List DTHitPairForFit) (firstHit : DTHitPairForFit)
    (after : List DTHitPairForFit) (st : BuildState) : BuildState :=
  (hits.reverse.takeWhile (fun lastHit => lastHit.ptr != firstHit.ptr)).foldl
    (seedPair env sl DAlphaMax firstHit after) st

/-- The `firstHit` loop of `buildSegments`, from the position of the iterator
`firstHit` to the end of `hits`. -/
def firstHitLoop (env : Env) (sl : DTSuperLayer) (DAlphaMax : ℚ)
    (hits : List DTHitPairForFit) : List DTHitPairForFit → BuildState → BuildState
  | [], st => st
  | firstHit :: after, st =>
    firstHitLoop env sl DAlphaMax hits after
      (lastHitLoop env sl DAlphaMax hits firstHit after st)

/-- The selection of the angular window in `buildSegments`. -/
def selectDAlphaMax (env : Env) (sl : DTSuperLayer) : ℚ :=
  if sl.superlayer = 2 then env.theAlphaMaxTheta else env.theAlphaMaxPhi

/-- The candidate list `buildSegments` has collected when the seed loops end,
before it is handed to the cleaner, with the final value of `maxfound`. -/
def collectCandidates (env : Env) (maxfound : Nat) (sl : DTSuperLayer)
    (hits : List DTHitPairForFit) : BuildState :=
  firstHitLoop env sl (selectDAlphaMax env sl) hits hits { maxfound := maxfound, result := [] }

/-- Embedding of `DTMeantimerPatternReco::buildSegments`. `maxfound` is the value of the
member variable on entry; the result is the returned list and the value of the
member variable on return. -/
def buildSegments (env : Env) (maxfound : Nat) (sl : DTSuperLayer)
    (hits : List DTHitPairForFit) : List DTSegmentCand × Nat :=
  if hits.length > env.theMaxAllowedHits then ([], maxfound)
  else
    let st := collectCandidates env maxfound sl hits
    (env.clean st.result, st.maxfound)

/-- Embedding of `DTMeantimerPatternReco::initHits`: one freshly allocated hit-for-fit per
raw hit pair; the position in the list serves as the address. -/
def initHits (pairs : List DTRecHit1DPair) : List DTHitPairForFit :=
  pairs.enum.map (fun ip => { ptr := ip.1, id := ip.2.wireId })

/-- Embedding of `DTMeantimerPatternReco::reconstruct`. -/
def reconstruct (env : Env) (maxfound : Nat) (sl : DTSuperLayer)
    (pairs : List DTRecHit1DPair) : List DTSLRecSegment2D :=
  let hitsForFit := initHits pairs
  let candidates := (buildSegments env maxfound sl hitsForFit).1
  candidates.map env.update

/-! ## Auxiliary definitions used in statements and concrete instances -/

/-- The trial candidate `fitWithT0` builds and fits: the point set of the
association sequence with what the external fit reports for it. -/
def trialCand (env : Env) (sl : DTSuperLayer) (assHits : List AssPoint) : DTSegmentCand :=
  { theHits := AssPointCont.insertRange [] assHits,
    fit := env.fit sl (AssPointCont.insertRange [] assHits) }

/-- A hit of super-layer 1 with address `p`, layer `l` and wire `w`. -/
def hitAt (p : Nat) (l w : Int) : DTHitPairForFit :=
  { ptr := p, id := { superLayer := 1, layer := l, wire := w } }

/-- An environment whose fit reports a fixed outcome for every point set. -/
def constEnv (chi2 t0 : ℚ) : Env :=
  { theMaxAllowedHits := 100
    theAlphaMaxTheta := 1 / 10
    theAlphaMaxPhi := 1
    theMaxChi2 := 8
    fit := fun _ _ => { chi2 := chi2, t0 := t0, chi2ndof := chi2, good := true }
    DAlpha := fun _ _ _ _ _ => 0
    clean := fun l => l
    update := fun c => { hits := c.theHits, chi2 := c.fit.chi2, t0 := c.fit.t0 } }

/-- The super-layer context used in concrete instances (a phi super-layer). -/
def sl1 : DTSuperLayer := { superlayer := 1 }

/-- Three association points in layers 1, 2, 3. -/
def threePoints : List AssPoint :=
  [(hitAt 0 1 5, DTCellSide.Left), (hitAt 1 2 5, DTCellSide.Right), (hitAt 2 3 5, DTCellSide.Left)]

/-- Four association points in layers 1, 2, 3, 4. -/
def fourPoints : List AssPoint :=
  threePoints ++ [(hitAt 3 4 5, DTCellSide.Right)]

/-- A fitted candidate with the given points and chi-square per degree of freedom. -/
def candOf (pts : List AssPoint) (chi2ndof : ℚ) : DTSegmentCand :=
  { theHits := pts, fit := { chi2 := chi2ndof, t0 := 0, chi2ndof := chi2ndof, good := true } }

/-- The environment `constEnv chi2 t0` with the hit ceiling set to `n` and a
cleaner that keeps the list and appends one more candidate. -/
def ceilingEnv (n : Nat) (chi2 t0 : ℚ) : Env :=
  { constEnv chi2 t0 with
    theMaxAllowedHits := n
    clean := fun l => l ++ [candOf [] 0] }

/-- Three hits of super-layer 1 in layers 1, 2, 3 on wire 5. -/
def threeHits : List DTHitPairForFit := [hitAt 0 1 5, hitAt 1 2 5, hitAt 2 3 5]

/-- Three raw hit pairs of super-layer 1 in layers 1, 2, 3 on wire 5. -/
def threePairs : List DTRecHit1DPair :=
  [{ wireId := { superLayer := 1, layer := 1, wire := 5 } },
   { wireId := { superLayer := 1, layer := 2, wire := 5 } },
   { wireId := { superLayer := 1, layer := 3, wire := 5 } }]

/-- The part of a search state that outlives a call of `addHits`: the
watermark and the output list. -/
def SearchState.out (s : SearchState) : BuildState :=
  { maxfound := s.maxfound, result := s.result }

/-- Two hits are geometry-compatible: the filter accepts them in both orders. -/
def compatible (a b : DTHitPairForFit) : Prop :=
  geometryFilter a.id b.id = true ∧ geometryFilter b.id a.id = true

/-- Any two association points at distinct positions of `pts` have compatible hits. -/
def PairwiseCompatible (pts : List AssPoint) : Prop :=
  pts.Pairwise (fun p q => compatible p.1 q.1)

/-- No two candidates at distinct positions of `l` are set-equal. -/
def NoSetEqualPair (l : List DTSegmentCand) : Prop :=
  l.Pairwise (fun a b => a.setEqual b = false)

/-- The configuration in which the search stands with respect to geometry:
the association points are pairwise compatible and every hit of the pool is
compatible with every association point. -/
def SeedCompatible (pool : List DTHitPairForFit) (s : SearchState) : Prop :=
  PairwiseCompatible s.assHits ∧ ∀ h ∈ pool, ∀ a ∈ s.assHits, compatible a.1 h

/-- Every candidate of the list has pairwise compatible hits. -/
def AllPairwiseCompatible (l : List DTSegmentCand) : Prop :=
  ∀ c ∈ l, PairwiseCompatible c.theHits

/-- The candidate built from the seed pair (hit 0 Left, hit 2 Left) of
`threeHits` and the hit in between on the left side, as fitted by `constEnv 1 1`. -/
def threeHitsCand : DTSegmentCand :=
  { theHits := [(hitAt 0 1 5, DTCellSide.Left), (hitAt 2 3 5, DTCellSide.Left),
                (hitAt 1 2 5, DTCellSide.Left)],
    fit := { chi2 := 1, t0 := 1, chi2ndof := 1, good := true } }

/-- The end of `addHits` for a fitted candidate: it is appended to the output
list when `checkDoubleCandidates` accepts it, and dropped otherwise. -/
def submitCandidate (result : List DTSegmentCand) (seg : DTSegmentCand) : List DTSegmentCand :=
  let chk := checkDoubleCandidates result seg
  if chk.1 = true then chk.2 ++ [seg] else chk.2

/-- A 4-hit candidate through layers 1 to 4 on wire 5, the better of two. -/
def candA : DTSegmentCand := candOf fourPoints 1

/-- A 4-hit candidate sharing the hits of layers 1 to 3 with `candA`, with a
different hit in layer 4, the worse of the two. -/
def candB : DTSegmentCand := candOf (threePoints ++ [(hitAt 9 4 6, DTCellSide.Left)]) 5

/-- Three hits of super-layer 1 in layers 1, 5, 9: any two are more than 3 layers apart. -/
def farHits : List DTHitPairForFit := [hitAt 0 1 5, hitAt 1 5 5, hitAt 2 9 5]

/-- Three raw hit pairs of super-layer 1 in layers 1, 5, 9. -/
def farPairs : List DTRecHit1DPair :=
  [{ wireId := { superLayer := 1, layer := 1, wire := 5 } },
   { wireId := { superLayer := 1, layer := 5, wire := 5 } },
   { wireId := { superLayer := 1, layer := 9, wire := 5 } }]

/-- The gate call of `addHits` for the pool hit `hit` on the left side. -/
def gateLeft (env : Env) (sl : DTSuperLayer) (s : SearchState) (hit : DTHitPairForFit) : FitGate :=
  fitWithT0 env sl (s.assHits ++ [(hit, DTCellSide.Left)])

/-- The gate call of `addHits` for the pool hit `hit` on the right side. -/
def gateRight (env : Env) (sl : DTSuperLayer) (s : SearchState) (hit : DTHitPairForFit) : FitGate :=
  fitWithT0 env sl (s.assHits ++ [(hit, DTCellSide.Right)])

/-- The two verdicts `left_ok`, `right_ok` with which `addHits` decides the
branches to recurse into for the pool hit `hit`. -/
def sidesAt (env : Env) (sl : DTSuperLayer) (s : SearchState) (hit : DTHitPairForFit) :
    Bool × Bool :=
  chooseSides s.assHits.length (gateLeft env sl s hit).seg.isSome
    (gateRight env sl s hit).seg.isSome (gateLeft env sl s hit).chi2 (gateRight env sl s hit).chi2

/-- The left branch of the loop body: push the hit on the left side, recurse
on `pool`, pop. -/
def leftBranch (recur : List DTHitPairForFit → SearchState → SearchState)
    (pool : List DTHitPairForFit) (hit : DTHitPairForFit) (s : SearchState) : SearchState :=
  (recur pool (s.push (hit, DTCellSide.Left))).pop

/-- The right branch of the loop body: push the hit on the right side, recurse
on `pool`, pop. -/
def rightBranch (recur : List DTHitPairForFit → SearchState → SearchState)
    (pool : List DTHitPairForFit) (hit : DTHitPairForFit) (s : SearchState) : SearchState :=
  (recur pool (s.push (hit, DTCellSide.Right))).pop

/-- The two guarded branches of the loop body in source order: the left one
when `sides.1` holds, then the right one when `sides.2` holds. -/
def branchState (recur : List DTHitPairForFit → SearchState → SearchState)
    (pool : List DTHitPairForFit) (hit : DTHitPairForFit) (sides : Bool × Bool)
    (s : SearchState) : SearchState :=
  let s := if sides.1 = true then leftBranch recur pool hit s else s
  if sides.2 = true then rightBranch recur pool hit s else s

/-- A stand-in for the recursive call that records the pool it is given: it
appends to the output list a candidate made of the hits of that pool. -/
def logPool (pool : List DTHitPairForFit) (s : SearchState) : SearchState :=
  { s with result := s.result ++ [candOf (pool.map (fun h => (h, DTCellSide.Left))) 0] }

/-- A search state with the seed pair of layers 1 and 4 on wire 5. -/
def seedState : SearchState :=
  { assHits := [(hitAt 0 1 5, DTCellSide.Left), (hitAt 3 4 5, DTCellSide.Left)],
    maxfound := 3, result := [] }

/-! ## The steps of the search as a trace -/

/-- Observable steps of `addHits`, in the order the source performs them. -/
inductive Event where
  /-- The function `addHits` is entered with this pool and association sequence. -/
  | enter (pool : List DTHitPairForFit) (assHits : List AssPoint)
  /-- The function `fitWithT0` is called with this association sequence. -/
  | gate (assHits : List AssPoint)
  /-- The left/right arbitration (the body of the test
  `assHits.size()>3 && left_ok && right_ok`) is run at this association size. -/
  | arbitrate (size : Nat)
  /-- A nested call is needed beyond the recursion budget. -/
  | exhausted
deriving DecidableEq, Repr

/-- The steps of the loop of `addHits`: for each pool hit the two gate calls,
then, unless both fail, the arbitration when its test holds, the steps of the
left and of the right recursive call when they are made, and the steps of the
remaining iterations. `recur` and `recurTrace` give the state and the steps of
a recursive call. -/
def addHitsLoopTrace (env : Env) (sl : DTSuperLayer)
    (recur : List DTHitPairForFit → SearchState → SearchState)
    (recurTrace : List DTHitPairForFit → SearchState → List Event) :
    List DTHitPairForFit → SearchState → List Event
  | [], _ => []
  | hit :: rest, s =>
    [Event.gate (s.assHits ++ [(hit, DTCellSide.Left)]),
     Event.gate (s.assHits ++ [(hit, DTCellSide.Right)])] ++
    (if (gateLeft env sl s hit).seg.isSome = false ∧ (gateRight env sl s hit).seg.isSome = false
     then addHitsLoopTrace env sl recur recurTrace rest s
     else
      (if s.assHits.length > 3 ∧ (gateLeft env sl s hit).seg.isSome = true
            ∧ (gateRight env sl s hit).seg.isSome = true
        then [Event.arbitrate s.assHits.length] else []) ++
      (if (sidesAt env sl s hit).1 = true
        then recurTrace (nextPool hit rest) (s.push (hit, DTCellSide.Left)) else []) ++
      (if (sidesAt env sl s hit).2 = true
        then recurTrace (nextPool hit rest)
          ((branchState recur (nextPool hit rest) hit ((sidesAt env sl s hit).1, false) s).push
            (hit, DTCellSide.Right))
        else []) ++
      addHitsLoopTrace env sl recur recurTrace rest
        (branchState recur (nextPool hit rest) hit (sidesAt env sl s hit) s))

/-- The steps of the end of `addHits`: the gate is called on the association
sequence unless it is shorter than the watermark. -/
def addHitsLeafTrace (s : SearchState) : List Event :=
  if s.assHits.length < s.maxfound then [] else [Event.gate s.assHits]

/-- The steps of `addHits` run with `fuel` nested calls available. -/
def addHitsTrace (env : Env) (sl : DTSuperLayer) :
    Nat → List DTHitPairForFit → SearchState → List Event
  | 0, _, _ => [Event.exhausted]
  | fuel + 1, hits, s =>
    Event.enter hits s.assHits ::
    (if s.assHits.length + hits.length < s.maxfound then []
     else
      addHitsLoopTrace env sl (addHitsAux env sl fuel) (addHitsTrace env sl fuel) hits s ++
      (if (addHitsLoop env sl (addHitsAux env sl fuel) hits s false).2 = true then []
       else addHitsLeafTrace (addHitsLoop env sl (addHitsAux env sl fuel) hits s false).1))

/-- The steps of one call of `addHits`, with the recursion budget of `addHits`. -/
def addHitsEvents (env : Env) (sl : DTSuperLayer) (hits : List DTHitPairForFit)
    (s : SearchState) : List Event :=
  addHitsTrace env sl (hits.length + 1) hits s

/-! ## Predicates on hit lists lying in one super-layer -/

/-- A shared pointer denotes one object: hits of the list with the same
address have the same wire identifier. -/
def WellFormedHits (hits : List DTHitPairForFit) : Prop :=
  ∀ a ∈ hits, ∀ b ∈ hits, a.ptr = b.ptr → a.id = b.id

/-- All hits of the list lie in one super-layer. -/
def OneSuperLayer (hits : List DTHitPairForFit) : Prop :=
  ∀ a ∈ hits, ∀ b ∈ hits, a.id.superLayer = b.id.superLayer

/-- A candidate built from exactly 3 or exactly 4 association points, with
distinct hits in pairwise distinct layers. -/
def ThreeOrFourLayers (c : DTSegmentCand) : Prop :=
  (c.nHits = 3 ∨ c.nHits = 4) ∧
  c.theHits.Pairwise (fun p q => p.1.ptr ≠ q.1.ptr ∧ p.1.id.layer ≠ q.1.id.layer)

/-- The configuration of a search over the hit list `hits`: geometry-compatible,
with association points and pool taken from `hits`, and a watermark of at least 3. -/
def SearchWithin (hits : List DTHitPairForFit) (pool : List DTHitPairForFit)
    (s : SearchState) : Prop :=
  SeedCompatible pool s ∧ (∀ a ∈ s.assHits, a.1 ∈ hits) ∧ (∀ h ∈ pool, h ∈ hits) ∧
  3 ≤ s.maxfound

/-! ## Definitions for the growth of the output list -/

/-- The candidates a call of `addHits` has appended to the output list: what
stands in the list on return behind the list on entry. -/
def appendedCands (env : Env) (sl : DTSuperLayer) (hits : List DTHitPairForFit)
    (s : SearchState) : List DTSegmentCand :=
  (addHits env sl hits s).result.drop s.result.length

/-- The hits in play in a call of `addHits`, those of the association sequence
and those of the pool, are distinct objects. -/
def DistinctHits (pool : List DTHitPairForFit) (s : SearchState) : Prop :=
  (s.assHits.map (fun a => a.1.ptr) ++ pool.map (fun h => h.ptr)).Nodup

/-- The relation between watermark and output list before (`a`) and after (`b`)
a call of `addHits`: the watermark has not decreased and the list has grown by
the trial candidates of association sequences `seqs`, of non-decreasing
lengths between the two watermarks, each satisfying `G`. -/
def GrowsBy (env : Env) (sl : DTSuperLayer) (G : List AssPoint → Prop)
    (a b : BuildState) : Prop :=
  a.maxfound ≤ b.maxfound ∧
  ∃ seqs : List (List AssPoint),
    b.result = a.result ++ seqs.map (trialCand env sl) ∧
    seqs.Pairwise (fun x y => x.length ≤ y.length) ∧
    ∀ x ∈ seqs, a.maxfound ≤ x.length ∧ x.length ≤ b.maxfound ∧ G x

/-- Six association points: those of `fourPoints` and two more. -/
def sixPoints : List AssPoint :=
  fourPoints ++ [(hitAt 4 5 5, DTCellSide.Left), (hitAt 5 6 5, DTCellSide.Right)]

/-- The environment `constEnv 5 1` with `theMaxChi2` set to the double nearest to 5/3. -/
def roundingEnv : Env :=
  { constEnv 5 1 with theMaxChi2 := 7505999378950827 / 4503599627370496 }

/-- An environment whose fit reports `chi2l` when the last point of the set
lies on the left side and `chi2r` when it lies on the right side, with no
timing information (`t0 = 0`). -/
def sideEnv (chi2l chi2r : ℚ) : Env :=
  { constEnv 0 0 with
    fit := fun _ pts =>
      { chi2 := match pts.getLast? with
          | some (_, DTCellSide.Left) => chi2l
          | _ => chi2r
        t0 := 0, chi2ndof := 0, good := true } }

/-- The environment `sideEnv` with `chi2 = 1.0` on the left side and
`chi2 = 1.1` (the double nearest to 11/10) on the right side. -/
def arbitrationEnv : Env := sideEnv 1 (2476979795053773 / 2251799813685248)

/-- A search state holding the four association points of `fourPoints`. -/
def fourState : SearchState := { assHits := fourPoints, maxfound := 3, result := [] }

/-! ## Theorems: geometry compatibility filter -/

/-- Truncated remainder by 2 vanishes exactly when the usual remainder does. -/
theorem tmod_two_eq_zero_iff (x : Int) : Int.tmod x 2 = 0 ↔ x % 2 = 0 := by
  rw [← Int.dvd_iff_tmod_eq_zero, Int.dvd_iff_emod_eq_zero]

/-- The two cut tables at a layer distance 1, 2 or 3. -/
theorem cut_tables (d : Nat) (h0 : d ≠ 0) (h3 : ¬ d > 3) :
    layerLowerCut.getD d 0 = (if (d : Int) = 1 then -1 else -2) ∧
    layerUpperCut.getD d 0 = (if (d : Int) = 3 then 3 else 2) := by
  have hd : d = 1 ∨ d = 2 ∨ d = 3 := by omega
  rcases hd with h | h | h <;> subst h <;> simp [layerLowerCut, layerUpperCut]

/-- C1: for every pair of wire identifiers, `geometryFilter` equals the
reference definition: true when the super-layers differ; otherwise false at
layer distance 0 or above 3; otherwise true exactly when the signed wire
distance (negated when the second layer is even) lies strictly between the
lower bound (-1, -2, -2) and the upper bound (2, 2, 3) of that distance. -/
theorem geometryFilter_eq_geometryFilterSpec (first second : DTWireId) :
    geometryFilter first second = geometryFilterSpec first second := by
  unfold geometryFilter geometryFilterSpec
  by_cases hsl : first.superLayer = second.superLayer
  · simp only [ne_eq, hsl, not_true_eq_false, if_false]
    have habs : |first.layer - second.layer| = ((first.layer - second.layer).natAbs : Int) :=
      Int.abs_eq_natAbs _
    rw [habs]
    generalize (first.layer - second.layer).natAbs = d
    by_cases h0 : d = 0
    · simp [h0]
    · by_cases h3 : d > 3
      · have : ((d : Int) = 0 ∨ (d : Int) > 3) := Or.inr (by omega)
        simp [h0, h3, this]
      · have hn : ¬ ((d : Int) = 0 ∨ (d : Int) > 3) := by omega
        obtain ⟨hl, hu⟩ := cut_tables d h0 h3
        simp only [h0, h3, hn, if_false, hl, hu, tmod_two_eq_zero_iff]
        by_cases hp : second.layer % 2 = 0
        · simp only [hp, if_true]
          split_ifs <;> simp <;> omega
        · simp only [hp, if_false]
          split_ifs <;> simp <;> omega
  · simp [hsl]

/-- C10 (as stated, refuted): two wire identifiers whose layers differ by 4
but whose super-layers differ pass the filter. -/
theorem geometryFilter_far_layers_counterexample :
    ¬ (∀ first second : DTWireId, (first.layer - second.layer).natAbs > 3 →
        geometryFilter first second = false) := by
  intro h
  have := h { superLayer := 1, layer := 1, wire := 1 } { superLayer := 2, layer := 5, wire := 1 }
    (by decide)
  revert this
  decide

/-- C10 (amended): for wire identifiers whose layer indices differ by more
than 3, `geometryFilter` returns false exactly when the two super-layer indices
are equal, whatever the wire numbers. -/
theorem geometryFilter_far_layers (first second : DTWireId)
    (h : (first.layer - second.layer).natAbs > 3) :
    geometryFilter first second = false ↔ first.superLayer = second.superLayer := by
  unfold geometryFilter
  by_cases hsl : first.superLayer = second.superLayer
  · have h0 : (first.layer - second.layer).natAbs ≠ 0 := by omega
    simp [hsl, h0, h]
  · simp [hsl]

/-- Witness of `geometryFilter_far_layers`: layers 1 and 5 of super-layer 1. -/
theorem geometryFilter_far_layers_witness :
    ((1 : Int) - 5).natAbs > 3 ∧
    (geometryFilter { superLayer := 1, layer := 1, wire := 7 }
        { superLayer := 1, layer := 5, wire := 7 } = false ↔ (1 : Int) = 1) :=
  ⟨by decide,
   geometryFilter_far_layers { superLayer := 1, layer := 1, wire := 7 }
     { superLayer := 1, layer := 5, wire := 7 } (by decide)⟩

/-! ## Theorems: double arithmetic -/

/-- Rounding to an integer gives the floor or the floor plus one. -/
theorem roundHalfEven_cases (y : ℚ) : roundHalfEven y = ⌊y⌋ ∨ roundHalfEven y = ⌊y⌋ + 1 := by
  unfold roundHalfEven
  split_ifs <;> simp

/-- An integer is rounded to itself. -/
theorem roundHalfEven_intCast (n : ℤ) : roundHalfEven (n : ℚ) = n := by
  unfold roundHalfEven
  simp

/-- Rounding to an integer is monotone. -/
theorem roundHalfEven_mono {a b : ℚ} (h : a ≤ b) : roundHalfEven a ≤ roundHalfEven b := by
  have hf : ⌊a⌋ ≤ ⌊b⌋ := Int.floor_mono h
  rcases lt_or_eq_of_le hf with hlt | heq
  · have h1 : roundHalfEven a ≤ ⌊a⌋ + 1 := by
      rcases roundHalfEven_cases a with h | h <;> omega
    have h2 : ⌊b⌋ ≤ roundHalfEven b := by
      rcases roundHalfEven_cases b with h | h <;> omega
    omega
  · unfold roundHalfEven
    rw [← heq]
    have hab : a - ⌊a⌋ ≤ b - ⌊a⌋ := by linarith
    split_ifs <;> first | omega | (exfalso; linarith)


/-- The spacing of the doubles is positive. -/
theorem ulpAt_pos (x : ℚ) : 0 < ulpAt x := by
  unfold ulpAt
  positivity

/-- The upper end of a binade is `2 ^ 53` spacings. -/
theorem ulpAt_mul_top (x : ℚ) : ((2 ^ 53 : ℤ) : ℚ) * ulpAt x = (2 : ℚ) ^ (binadeExp x + 1) := by
  unfold ulpAt
  have h : (binadeExp x + 1 : ℤ) = 53 + (binadeExp x - 52) := by ring
  rw [h, zpow_add₀ (by norm_num : (2 : ℚ) ≠ 0)]
  norm_num

/-- The lower end of a binade is `2 ^ 52` spacings. -/
theorem ulpAt_mul_bot (x : ℚ) : ((2 ^ 52 : ℤ) : ℚ) * ulpAt x = (2 : ℚ) ^ (binadeExp x) := by
  unfold ulpAt
  have h : (binadeExp x : ℤ) = 52 + (binadeExp x - 52) := by ring
  conv_rhs => rw [h, zpow_add₀ (by norm_num : (2 : ℚ) ≠ 0)]
  norm_num

/-- The rounding of a non-negative value is non-negative. -/
theorem roundDoubleNonneg_nonneg (x : ℚ) (hx : 0 ≤ x) : 0 ≤ roundDoubleNonneg x := by
  unfold roundDoubleNonneg
  have hq := ulpAt_pos x
  have h0 : (0 : ℚ) ≤ x / ulpAt x := div_nonneg hx hq.le
  have h1 : roundHalfEven ((0 : ℤ) : ℚ) ≤ roundHalfEven (x / ulpAt x) :=
    roundHalfEven_mono (by simpa using h0)
  rw [roundHalfEven_intCast] at h1
  have h2 : (0 : ℚ) ≤ (roundHalfEven (x / ulpAt x) : ℚ) := by exact_mod_cast h1
  exact mul_nonneg h2 hq.le

/-- The rounding of a positive value is at most the upper end of its binade. -/
theorem roundDoubleNonneg_le_top (x : ℚ) :
    roundDoubleNonneg x ≤ (2 : ℚ) ^ (binadeExp x + 1) := by
  unfold roundDoubleNonneg
  have hq := ulpAt_pos x
  have hlt : x < (2 : ℚ) ^ (Int.log 2 x + 1) := by
    have := Int.lt_zpow_succ_log_self (R := ℚ) (b := 2) (by norm_num) x
    simpa using this
  have hle : (2 : ℚ) ^ (Int.log 2 x + 1) ≤ (2 : ℚ) ^ (binadeExp x + 1) := by
    apply zpow_le_zpow_right₀ (by norm_num)
    unfold binadeExp
    omega
  have hx2 : x ≤ ((2 ^ 53 : ℤ) : ℚ) * ulpAt x := by
    rw [ulpAt_mul_top]
    linarith
  have hdiv : x / ulpAt x ≤ ((2 ^ 53 : ℤ) : ℚ) := by
    rw [div_le_iff₀ hq]
    exact hx2
  have h1 := roundHalfEven_mono hdiv
  rw [roundHalfEven_intCast] at h1
  have h2 : (roundHalfEven (x / ulpAt x) : ℚ) ≤ ((2 ^ 53 : ℤ) : ℚ) := by exact_mod_cast h1
  rw [← ulpAt_mul_top]
  exact mul_le_mul_of_nonneg_right h2 hq.le

/-- The rounding of a value of the normal range is at least the lower end of its binade. -/
theorem roundDoubleNonneg_ge_bot (x : ℚ) (hx : 0 < x) (hn : binadeExp x = Int.log 2 x) :
    (2 : ℚ) ^ (binadeExp x) ≤ roundDoubleNonneg x := by
  unfold roundDoubleNonneg
  have hq := ulpAt_pos x
  have hle : (2 : ℚ) ^ (Int.log 2 x) ≤ x := by
    have := Int.zpow_log_le_self (R := ℚ) (b := 2) (by norm_num) hx
    simpa using this
  have hx2 : ((2 ^ 52 : ℤ) : ℚ) * ulpAt x ≤ x := by
    rw [ulpAt_mul_bot, hn]
    exact hle
  have hdiv : ((2 ^ 52 : ℤ) : ℚ) ≤ x / ulpAt x := by
    rw [le_div_iff₀ hq]
    exact hx2
  have h1 := roundHalfEven_mono hdiv
  rw [roundHalfEven_intCast] at h1
  have h2 : ((2 ^ 52 : ℤ) : ℚ) ≤ (roundHalfEven (x / ulpAt x) : ℚ) := by exact_mod_cast h1
  rw [← ulpAt_mul_bot]
  exact mul_le_mul_of_nonneg_right h2 hq.le

/-- Rounding to a double is monotone on the non-negative rationals. -/
theorem roundDoubleNonneg_mono {x y : ℚ} (hx : 0 ≤ x) (hxy : x ≤ y) :
    roundDoubleNonneg x ≤ roundDoubleNonneg y := by
  rcases eq_or_lt_of_le hx with h0 | hpos
  · subst h0
    have hz : roundDoubleNonneg 0 = 0 := by
      unfold roundDoubleNonneg
      have : roundHalfEven ((0 : ℤ) : ℚ) = 0 := roundHalfEven_intCast 0
      simp only [Int.cast_zero] at this
      simp [this]
    rw [hz]
    exact roundDoubleNonneg_nonneg y hxy
  · have hypos : 0 < y := lt_of_lt_of_le hpos hxy
    have hlog : Int.log 2 x ≤ Int.log 2 y := Int.log_mono_right hpos hxy
    have hexp : binadeExp x ≤ binadeExp y := by
      unfold binadeExp
      omega
    rcases eq_or_lt_of_le hexp with heq | hlt
    · have hq : ulpAt x = ulpAt y := by
        unfold ulpAt
        rw [heq]
      unfold roundDoubleNonneg
      rw [hq]
      have hqp := ulpAt_pos y
      have hdiv : x / ulpAt y ≤ y / ulpAt y := div_le_div_of_nonneg_right hxy hqp.le
      have h1 := roundHalfEven_mono hdiv
      have h2 : (roundHalfEven (x / ulpAt y) : ℚ) ≤ (roundHalfEven (y / ulpAt y) : ℚ) := by
        exact_mod_cast h1
      exact mul_le_mul_of_nonneg_right h2 hqp.le
    · have hn : binadeExp y = Int.log 2 y := by
        unfold binadeExp at hlt ⊢
        omega
      have h1 := roundDoubleNonneg_le_top x
      have h2 := roundDoubleNonneg_ge_bot y hypos hn
      have h3 : (2 : ℚ) ^ (binadeExp x + 1) ≤ (2 : ℚ) ^ (binadeExp y) :=
        zpow_le_zpow_right₀ (by norm_num) (by omega)
      linarith

/-- Rounding to a double is monotone. -/
theorem roundDouble_mono {x y : ℚ} (hxy : x ≤ y) : roundDouble x ≤ roundDouble y := by
  unfold roundDouble
  by_cases hx : 0 ≤ x
  · have hy : 0 ≤ y := le_trans hx hxy
    rw [if_pos hx, if_pos hy]
    exact roundDoubleNonneg_mono hx hxy
  · rw [if_neg hx]
    by_cases hy : 0 ≤ y
    · rw [if_pos hy]
      have h1 := roundDoubleNonneg_nonneg (-x) (by linarith)
      have h2 := roundDoubleNonneg_nonneg y hy
      linarith
    · rw [if_neg hy]
      have := roundDoubleNonneg_mono (x := -y) (y := -x) (by linarith) (by linarith)
      linarith


/-- A power of two of the normal range is a double. -/
theorem roundDouble_two_zpow (k : ℤ) (hk : -1022 ≤ k) : roundDouble ((2 : ℚ) ^ k) = (2 : ℚ) ^ k := by
  have hpos : (0 : ℚ) < (2 : ℚ) ^ k := by positivity
  unfold roundDouble
  rw [if_pos hpos.le]
  have he : binadeExp ((2 : ℚ) ^ k) = k := by
    unfold binadeExp
    have := Int.log_zpow (R := ℚ) (b := 2) (by norm_num) k
    simp only [Nat.cast_ofNat] at this
    rw [this]
    omega
  have hb := ulpAt_mul_bot ((2 : ℚ) ^ k)
  rw [he] at hb
  have hq := ulpAt_pos ((2 : ℚ) ^ k)
  have hdiv : (2 : ℚ) ^ k / ulpAt ((2 : ℚ) ^ k) = ((2 ^ 52 : ℤ) : ℚ) := by
    rw [div_eq_iff hq.ne']
    exact hb.symm
  unfold roundDoubleNonneg
  rw [hdiv, roundHalfEven_intCast]
  exact hb

/-- Zero is a double. -/
theorem roundDouble_zero : roundDouble 0 = 0 := by
  unfold roundDouble roundDoubleNonneg
  have : roundHalfEven ((0 : ℤ) : ℚ) = 0 := roundHalfEven_intCast 0
  simp only [Int.cast_zero] at this
  simp [this]


/-- A natural number below `2 ^ 53` is a double. -/
theorem roundDouble_natCast (m : ℕ) (hm : m < 2 ^ 53) : roundDouble (m : ℚ) = (m : ℚ) := by
  rcases Nat.eq_zero_or_pos m with h0 | hpos
  · subst h0
    simpa using roundDouble_zero
  · have hx : (0 : ℚ) ≤ (m : ℚ) := Nat.cast_nonneg m
    have hlog : Int.log 2 (m : ℚ) = (Nat.log 2 m : ℤ) := Int.log_natCast 2 m
    have hL : Nat.log 2 m < 53 := Nat.log_lt_of_lt_pow (by omega) hm
    have he : binadeExp (m : ℚ) = (Nat.log 2 m : ℤ) := by
      unfold binadeExp
      rw [hlog]
      omega
    have hq : ulpAt (m : ℚ) = ((2 : ℚ) ^ (52 - Nat.log 2 m))⁻¹ := by
      unfold ulpAt
      rw [he]
      have : ((Nat.log 2 m : ℤ) - 52) = -((52 - Nat.log 2 m : ℕ) : ℤ) := by omega
      rw [this, zpow_neg, zpow_natCast]
    have hdiv : (m : ℚ) / ulpAt (m : ℚ) = (((m * 2 ^ (52 - Nat.log 2 m) : ℕ) : ℤ) : ℚ) := by
      rw [hq, div_inv_eq_mul]
      push_cast
      ring
    unfold roundDouble
    rw [if_pos hx]
    unfold roundDoubleNonneg
    rw [hdiv, roundHalfEven_intCast, hq]
    push_cast
    field_simp

/-- The double literal `0.1` is the double nearest to one tenth, and is positive. -/
theorem tenthDouble_spec : roundDouble (1 / 10) = tenthDouble ∧ 0 < tenthDouble := by
  constructor
  · decide!
  · unfold tenthDouble
    norm_num

/-- A double operation never returns more than a double that bounds its exact result. -/
theorem roundDouble_le_of_le {x y : ℚ} (hx : IsDouble x) (h : y ≤ x) : roundDouble y ≤ x := by
  have := roundDouble_mono h
  rwa [hx] at this

/-- Subtracting the literal `0.1` from a double in double arithmetic does not
exceed that double. -/
theorem subDouble_tenth_le {x : ℚ} (hx : IsDouble x) : subDouble x tenthDouble ≤ x := by
  unfold subDouble
  apply roundDouble_le_of_le hx
  have := tenthDouble_spec.2
  linarith

/-! ## Theorems: candidate fit gate -/

/-- The wrapped subtraction is the exact one from 3 points on. -/
theorem sizeMinus3_eq (n : Nat) (h3 : 3 ≤ n) (h64 : n < 2 ^ 64) : sizeMinus3 n = n - 3 := by
  unfold sizeMinus3
  omega

/-- The output parameters of `fitWithT0` are what the fit reports. -/
theorem fitWithT0_out (env : Env) (sl : DTSuperLayer) (assHits : List AssPoint) :
    (fitWithT0 env sl assHits).chi2 = (trialCand env sl assHits).fit.chi2 ∧
    (fitWithT0 env sl assHits).t0_corr = (trialCand env sl assHits).fit.t0 :=
  ⟨rfl, rfl⟩

/-- The returned pointer of `fitWithT0`, as a case analysis on the fit outcome. -/
theorem fitWithT0_seg (env : Env) (sl : DTSuperLayer) (assHits : List AssPoint) :
    (fitWithT0 env sl assHits).seg =
      if (trialCand env sl assHits).fit.chi2 = -1 then none
      else if assHits.length = 3 then some (trialCand env sl assHits)
      else if (trialCand env sl assHits).fit.t0 = 0 then
        (if (trialCand env sl assHits).fit.chi2 < 200 then some (trialCand env sl assHits)
         else none)
      else if divDouble (trialCand env sl assHits).fit.chi2
                (sizeToDouble (sizeMinus3 assHits.length))
                < env.theMaxChi2 then some (trialCand env sl assHits)
      else none :=
  rfl

/-- A candidate returned by `fitWithT0` is the trial candidate. -/
theorem fitWithT0_seg_eq (env : Env) (sl : DTSuperLayer) (assHits : List AssPoint)
    (seg : DTSegmentCand) (h : (fitWithT0 env sl assHits).seg = some seg) :
    seg = trialCand env sl assHits := by
  rw [fitWithT0_seg] at h
  split_ifs at h <;> simp_all

/-- C2: for an association sequence of `n ≥ 3` points and any fit outcome
`(chi2, t0)`, `fitWithT0` returns the fitted candidate when `chi2 ≠ -1` and
(`n = 3`, or `t0 = 0` and `chi2 < 200`, or `t0 ≠ 0` and
`chi2 / (n - 3) < theMaxChi2`), and returns no candidate (`none`, an ordinary
value) in every other case. The quotient is the one the source computes: the
double division of `chi2` by `n - 3` converted to `double`, a conversion that
is exact up to `2 ^ 53` points. -/
theorem fitWithT0_accepts_iff (env : Env) (sl : DTSuperLayer) (assHits : List AssPoint)
    (h3 : 3 ≤ assHits.length) (h64 : assHits.length < 2 ^ 64) :
    (fitWithT0 env sl assHits).seg =
      (if (trialCand env sl assHits).fit.chi2 ≠ -1 ∧
          (assHits.length = 3 ∨
           ((trialCand env sl assHits).fit.t0 = 0 ∧ (trialCand env sl assHits).fit.chi2 < 200) ∨
           ((trialCand env sl assHits).fit.t0 ≠ 0 ∧
             divDouble (trialCand env sl assHits).fit.chi2 (sizeToDouble (assHits.length - 3))
               < env.theMaxChi2))
      then some (trialCand env sl assHits) else none) ∧
    (assHits.length < 2 ^ 53 →
      sizeToDouble (assHits.length - 3) = (assHits.length : ℚ) - 3 ∧
      divDouble (trialCand env sl assHits).fit.chi2 (sizeToDouble (assHits.length - 3))
        = roundDouble ((trialCand env sl assHits).fit.chi2 / ((assHits.length : ℚ) - 3))) := by
  constructor
  · rw [fitWithT0_seg, sizeMinus3_eq _ h3 h64]
    by_cases hc : (trialCand env sl assHits).fit.chi2 = -1
    · simp [hc]
    · by_cases hn : assHits.length = 3
      · simp [hc, hn]
      · by_cases ht : (trialCand env sl assHits).fit.t0 = 0
        · simp [hc, hn, ht]
        · simp [hc, hn, ht]
  · intro h53
    have hconv : sizeToDouble (assHits.length - 3) = (assHits.length : ℚ) - 3 := by
      unfold sizeToDouble
      rw [roundDouble_natCast _ (by omega)]
      push_cast [Nat.cast_sub h3]
      rfl
    refine ⟨hconv, ?_⟩
    unfold divDouble
    rw [hconv]

/-- Witness of `fitWithT0_accepts_iff`: six points, `chi2 = 5`, `t0 = 1` and
`theMaxChi2` the double nearest to 5/3. The double quotient `5.0 / 3` is that
same double, so the comparison fails and no candidate is returned, although
the exact quotient 5/3 lies below `theMaxChi2`. -/
theorem fitWithT0_accepts_iff_witness :
    3 ≤ sixPoints.length ∧ sixPoints.length < 2 ^ 64 ∧
    (fitWithT0 roundingEnv sl1 sixPoints).seg = none ∧
    (5 : ℚ) / 3 < roundingEnv.theMaxChi2 :=
  ⟨by decide, by decide,
   (fitWithT0_accepts_iff roundingEnv sl1 sixPoints (by decide) (by decide)).1.trans
     (if_neg (by decide!)),
   by decide!⟩

/-- C8: a candidate of exactly 3 association points with a numerically valid
fit (`chi2 ≠ -1`) is returned by `fitWithT0`, whatever `chi2`, `t0` and
`theMaxChi2` are. -/
theorem fitWithT0_three_points (env : Env) (sl : DTSuperLayer) (assHits : List AssPoint)
    (hn : assHits.length = 3) (hc : (env.fit sl (AssPointCont.insertRange [] assHits)).chi2 ≠ -1) :
    (fitWithT0 env sl assHits).seg = some (trialCand env sl assHits) := by
  rw [fitWithT0_seg]
  have hc2 : (trialCand env sl assHits).fit.chi2 ≠ -1 := hc
  simp [hc2, hn]

/-- Witness of `fitWithT0_three_points`: three points with `chi2 = 1000`, `t0 = 0`. -/
theorem fitWithT0_three_points_witness :
    threePoints.length = 3 ∧
    ((constEnv 1000 0).fit sl1 (AssPointCont.insertRange [] threePoints)).chi2 ≠ -1 ∧
    (fitWithT0 (constEnv 1000 0) sl1 threePoints).seg
      = some (trialCand (constEnv 1000 0) sl1 threePoints) :=
  ⟨by decide, by decide, fitWithT0_three_points (constEnv 1000 0) sl1 threePoints (by decide) (by decide)⟩

/-- C9 (as stated, refuted): with 3 association points, `t0 = 0` and
`chi2 = 250 ≥ 200` the gate returns a candidate. -/
theorem fitWithT0_zero_t0_counterexample :
    ¬ (∀ (env : Env) (sl : DTSuperLayer) (assHits : List AssPoint),
        (trialCand env sl assHits).fit.t0 = 0 → (trialCand env sl assHits).fit.chi2 ≥ 200 →
        (fitWithT0 env sl assHits).seg = none) := by
  intro h
  have h1 := h (constEnv 250 0) sl1 threePoints (by decide) (by decide)
  have h2 : (fitWithT0 (constEnv 250 0) sl1 threePoints).seg ≠ none := by decide
  exact h2 h1

/-- C9 (amended): when the fit reports `t0 = 0` and `chi2 ≥ 200`, `fitWithT0`
returns no candidate exactly when the number of association points is not 3. -/
theorem fitWithT0_zero_t0_rejects (env : Env) (sl : DTSuperLayer) (assHits : List AssPoint)
    (ht : (trialCand env sl assHits).fit.t0 = 0)
    (hc : (trialCand env sl assHits).fit.chi2 ≥ 200) :
    (fitWithT0 env sl assHits).seg = none ↔ assHits.length ≠ 3 := by
  rw [fitWithT0_seg]
  have hne : (trialCand env sl assHits).fit.chi2 ≠ -1 := by
    intro h
    rw [h] at hc
    norm_num at hc
  have hlt : ¬ (trialCand env sl assHits).fit.chi2 < 200 := not_lt.mpr hc
  by_cases hn : assHits.length = 3
  · simp [hne, hn]
  · simp [hne, hn, ht, hlt]

/-- Witness of `fitWithT0_zero_t0_rejects`: four points, `t0 = 0`, `chi2 = 250`. -/
theorem fitWithT0_zero_t0_rejects_witness :
    (trialCand (constEnv 250 0) sl1 fourPoints).fit.t0 = 0 ∧
    (trialCand (constEnv 250 0) sl1 fourPoints).fit.chi2 ≥ 200 ∧
    ((fitWithT0 (constEnv 250 0) sl1 fourPoints).seg = none ↔ fourPoints.length ≠ 3) :=
  ⟨by decide, by decide, fitWithT0_zero_t0_rejects (constEnv 250 0) sl1 fourPoints (by decide) (by decide)⟩

/-! ## Theorems: double-candidate filter -/

/-- The 32-bit expression `int(nHits - 2)` is the integer `nHits - 2` for every
hit count below `2 ^ 31`, also for the counts 0 and 1 where the unsigned
subtraction wraps around. -/
theorem intOfNHitsMinus2_eq (n : Nat) (h : n < 2 ^ 31) : intOfNHitsMinus2 n = (n : Int) - 2 := by
  unfold intOfNHitsMinus2
  by_cases h2 : 2 ≤ n
  · have hu : (n + 2 ^ 32 - 2) % 2 ^ 32 = n - 2 := by omega
    have hlt : n - 2 < 2 ^ 31 := by omega
    simp only [hu, hlt, if_true]
    omega
  · have hu : (n + 2 ^ 32 - 2) % 2 ^ 32 = n + 2 ^ 32 - 2 := by omega
    have hlt : ¬ (n + 2 ^ 32 - 2 < 2 ^ 31) := by omega
    simp only [hu, hlt, if_false]
    omega

/-- The loop of the double-candidate filter rejects exactly when some accepted
candidate equals or dominates the new one. -/
theorem checkDoubleCandidatesLoop_eq_false_iff (seg : DTSegmentCand) (cands : List DTSegmentCand) :
    checkDoubleCandidatesLoop seg cands = false ↔
      ∃ c ∈ cands, c.setEqual seg = true ∨
        (c.nHits ≥ seg.nHits ∧ c.chi2ndof < seg.chi2ndof
          ∧ c.nSharedHitPairs seg > intOfNHitsMinus2 seg.nHits) := by
  induction cands with
  | nil => simp [checkDoubleCandidatesLoop]
  | cons cand rest ih =>
    unfold checkDoubleCandidatesLoop
    by_cases he : cand.setEqual seg = true
    · simp [he]
    · by_cases hd : cand.nHits ≥ seg.nHits ∧ cand.chi2ndof < seg.chi2ndof
          ∧ cand.nSharedHitPairs seg > intOfNHitsMinus2 seg.nHits
      · rw [if_neg he, if_pos hd]
        exact ⟨fun _ => ⟨cand, List.mem_cons_self _ _, Or.inr hd⟩, fun _ => rfl⟩
      · rw [if_neg he, if_neg hd, ih]
        constructor
        · rintro ⟨c, hc, h⟩
          exact ⟨c, List.mem_cons_of_mem _ hc, h⟩
        · rintro ⟨c, hc, h⟩
          rcases List.mem_cons.mp hc with rfl | hc
          · rcases h with h | h
            · exact absurd h he
            · exact absurd h hd
          · exact ⟨c, hc, h⟩

/-- C3: `checkDoubleCandidates` returns false exactly when some candidate `c`
of the list is set-equal to `seg`, or has `nHits c ≥ nHits seg`,
`chi2ndof c < chi2ndof seg` and `nSharedHitPairs c seg > nHits seg - 2`;
otherwise it returns true. It returns true on the empty list and leaves the
list as it was. -/
theorem checkDoubleCandidates_spec (cands : List DTSegmentCand) (seg : DTSegmentCand)
    (h31 : seg.nHits < 2 ^ 31) :
    ((checkDoubleCandidates cands seg).1 = false ↔
      ∃ c ∈ cands, c.setEqual seg = true ∨
        (c.nHits ≥ seg.nHits ∧ c.chi2ndof < seg.chi2ndof
          ∧ c.nSharedHitPairs seg > (seg.nHits : Int) - 2)) ∧
    ((checkDoubleCandidates cands seg).1 = true ↔
      ¬ ∃ c ∈ cands, c.setEqual seg = true ∨
        (c.nHits ≥ seg.nHits ∧ c.chi2ndof < seg.chi2ndof
          ∧ c.nSharedHitPairs seg > (seg.nHits : Int) - 2)) ∧
    (checkDoubleCandidates [] seg).1 = true ∧
    (checkDoubleCandidates cands seg).2 = cands := by
  have key := checkDoubleCandidatesLoop_eq_false_iff seg cands
  rw [intOfNHitsMinus2_eq _ h31] at key
  refine ⟨key, ?_, rfl, rfl⟩
  rw [← key]
  show checkDoubleCandidatesLoop seg cands = true ↔ ¬ checkDoubleCandidatesLoop seg cands = false
  cases checkDoubleCandidatesLoop seg cands <;> simp

/-- Witness of `checkDoubleCandidates_spec`: a 4-point candidate against a list
holding a better candidate that shares 3 of its hits. -/
theorem checkDoubleCandidates_spec_witness :
    (candOf fourPoints 5).nHits < 2 ^ 31 ∧
    (checkDoubleCandidates [candOf ((hitAt 9 4 6, DTCellSide.Left) :: threePoints) 1]
        (candOf fourPoints 5)).1 = false :=
  ⟨by decide,
   ((checkDoubleCandidates_spec [candOf ((hitAt 9 4 6, DTCellSide.Left) :: threePoints) 1]
      (candOf fourPoints 5) (by decide)).1).mpr
     ⟨candOf ((hitAt 9 4 6, DTCellSide.Left) :: threePoints) 1, by simp, Or.inr (by decide)⟩⟩

/-! ## Theorems: top-level orchestrator -/

/-- The function `initHits` wraps every raw hit pair: the lengths agree. -/
theorem initHits_length (pairs : List DTRecHit1DPair) : (initHits pairs).length = pairs.length := by
  simp [initHits]

/-- C6: a hit list longer than `MaxAllowedHits` makes `buildSegments` return
the empty list and leave `maxfound` as it was, whatever the fit and the cleaner
would compute (each top-level `addHits` sets `maxfound` to 3, and the cleaner
may map the empty list to a non-empty one), and `reconstruct` returns no
segment; a hit list of length exactly `MaxAllowedHits` goes through the seed
loops and the cleaner. -/
theorem buildSegments_ceiling (env : Env) (maxfound : Nat) (sl : DTSuperLayer) :
    (∀ hits : List DTHitPairForFit, hits.length > env.theMaxAllowedHits →
      buildSegments env maxfound sl hits = ([], maxfound)) ∧
    (∀ pairs : List DTRecHit1DPair, pairs.length > env.theMaxAllowedHits →
      reconstruct env maxfound sl pairs = []) ∧
    (∀ hits : List DTHitPairForFit, hits.length = env.theMaxAllowedHits →
      buildSegments env maxfound sl hits =
        (env.clean (collectCandidates env maxfound sl hits).result,
         (collectCandidates env maxfound sl hits).maxfound)) := by
  refine ⟨?_, ?_, ?_⟩
  · intro hits h
    simp [buildSegments, h]
  · intro pairs h
    have h2 : (initHits pairs).length > env.theMaxAllowedHits := by
      rw [initHits_length]
      exact h
    simp [reconstruct, buildSegments, h2]
  · intro hits h
    have h2 : ¬ hits.length > env.theMaxAllowedHits := by omega
    simp [buildSegments, h2]

/-- Witness of `buildSegments_ceiling`: three hits against a ceiling of 2 (the
cleaner of `ceilingEnv` would return a non-empty list) and against a ceiling
of 3. -/
theorem buildSegments_ceiling_witness :
    threeHits.length > (ceilingEnv 2 1 1).theMaxAllowedHits ∧
    buildSegments (ceilingEnv 2 1 1) 7 sl1 threeHits = ([], 7) ∧
    threePairs.length > (ceilingEnv 2 1 1).theMaxAllowedHits ∧
    reconstruct (ceilingEnv 2 1 1) 7 sl1 threePairs = [] ∧
    threeHits.length = (ceilingEnv 3 1 1).theMaxAllowedHits ∧
    buildSegments (ceilingEnv 3 1 1) 7 sl1 threeHits =
      ((ceilingEnv 3 1 1).clean (collectCandidates (ceilingEnv 3 1 1) 7 sl1 threeHits).result,
       (collectCandidates (ceilingEnv 3 1 1) 7 sl1 threeHits).maxfound) :=
  ⟨by decide,
   (buildSegments_ceiling (ceilingEnv 2 1 1) 7 sl1).1 threeHits (by decide),
   by decide,
   (buildSegments_ceiling (ceilingEnv 2 1 1) 7 sl1).2.1 threePairs (by decide),
   by decide,
   (buildSegments_ceiling (ceilingEnv 3 1 1) 7 sl1).2.2 threeHits (by decide)⟩

/-- A loop whose body, started from two states with the same list, ends with
the same list, produces the same list from two such states. -/
theorem foldl_result_congr {α : Type} (f : BuildState → α → BuildState)
    (hf : ∀ s1 s2 a, s1.result = s2.result → (f s1 a).result = (f s2 a).result)
    (l : List α) :
    ∀ s1 s2 : BuildState, s1.result = s2.result →
      (l.foldl f s1).result = (l.foldl f s2).result := by
  induction l with
  | nil => intro s1 s2 h; exact h
  | cons a l ih =>
    intro s1 s2 h
    simp only [List.foldl_cons]
    exact ih _ _ (hf s1 s2 a h)

/-- The candidate list after one pair of sides does not depend on the
watermark before it: `addHits` is entered with `maxfound = 3`. -/
theorem seedSides_result_congr (env : Env) (sl : DTSuperLayer) (DAlphaMax : ℚ)
    (firstHit lastHit : DTHitPairForFit) (hitsForFit : List DTHitPairForFit)
    (firstLR lastLR : DTCellSide) (s1 s2 : BuildState) (h : s1.result = s2.result) :
    (seedSides env sl DAlphaMax firstHit lastHit hitsForFit s1 firstLR lastLR).result =
    (seedSides env sl DAlphaMax firstHit lastHit hitsForFit s2 firstLR lastLR).result := by
  unfold seedSides
  split_ifs
  · exact h
  · simp only [h]

/-- The candidate list after one seed pair does not depend on the watermark before it. -/
theorem seedPair_result_congr (env : Env) (sl : DTSuperLayer) (DAlphaMax : ℚ)
    (firstHit : DTHitPairForFit) (after : List DTHitPairForFit)
    (s1 s2 : BuildState) (lastHit : DTHitPairForFit) (h : s1.result = s2.result) :
    (seedPair env sl DAlphaMax firstHit after s1 lastHit).result =
    (seedPair env sl DAlphaMax firstHit after s2 lastHit).result := by
  unfold seedPair
  split_ifs
  · exact h
  · apply foldl_result_congr _ _ _ _ _ h
    intro t1 t2 a ht
    apply foldl_result_congr _ _ _ _ _ ht
    intro u1 u2 b hu
    exact seedSides_result_congr _ _ _ _ _ _ _ _ _ _ hu

/-- The candidate list after the `firstHit` loop does not depend on the watermark before it. -/
theorem firstHitLoop_result_congr (env : Env) (sl : DTSuperLayer) (DAlphaMax : ℚ)
    (hits : List DTHitPairForFit) (rest : List DTHitPairForFit) :
    ∀ s1 s2 : BuildState, s1.result = s2.result →
      (firstHitLoop env sl DAlphaMax hits rest s1).result =
      (firstHitLoop env sl DAlphaMax hits rest s2).result := by
  induction rest with
  | nil => intro s1 s2 h; exact h
  | cons firstHit after ih =>
    intro s1 s2 h
    unfold firstHitLoop
    apply ih
    unfold lastHitLoop
    apply foldl_result_congr _ _ _ _ _ h
    intro t1 t2 a ht
    exact seedPair_result_congr _ _ _ _ _ _ _ _ ht

/-- C7: for every configuration, super-layer and hit list, and any two values
`m1`, `m2` the watermark `maxfound` holds on entry, `buildSegments` returns the
same candidate list in the same order, and `reconstruct` the same segments;
the fit, the geometry and the cleaner are functions of their arguments. -/
theorem buildSegments_maxfound_independent (env : Env) (sl : DTSuperLayer)
    (hits : List DTHitPairForFit) (pairs : List DTRecHit1DPair) (m1 m2 : Nat) :
    (buildSegments env m1 sl hits).1 = (buildSegments env m2 sl hits).1 ∧
    reconstruct env m1 sl pairs = reconstruct env m2 sl pairs := by
  have key : ∀ hs : List DTHitPairForFit,
      (buildSegments env m1 sl hs).1 = (buildSegments env m2 sl hs).1 := by
    intro hs
    unfold buildSegments
    split_ifs
    · rfl
    · have := firstHitLoop_result_congr env sl (selectDAlphaMax env sl) hs hs
        { maxfound := m1, result := [] } { maxfound := m2, result := [] } rfl
      simp only [collectCandidates, this]
  refine ⟨key hits, ?_⟩
  unfold reconstruct
  simp only [key]

/-! ## Theorems: recursive segment builder, general facts -/

/-- The geometry filter does not depend on the order of its two arguments. -/
theorem geometryFilter_comm (a b : DTWireId) : geometryFilter a b = geometryFilter b a := by
  unfold geometryFilter
  by_cases hsl : a.superLayer = b.superLayer
  · simp only [ne_eq, hsl, not_true_eq_false, if_false]
    have hswap : (b.layer - a.layer).natAbs = (a.layer - b.layer).natAbs := by
      rw [← Int.natAbs_neg (a.layer - b.layer), neg_sub]
    rw [hswap]
    have hd := Int.natAbs_eq (a.layer - b.layer)
    generalize (a.layer - b.layer).natAbs = d at *
    by_cases h0 : d = 0
    · simp only [h0, if_true]
    · by_cases h3 : d > 3
      · simp only [h0, h3, if_true, if_false]
      · obtain ⟨hl, hu⟩ := cut_tables d h0 h3
        simp only [h0, h3, if_false, hl, hu, tmod_two_eq_zero_iff]
        have hpa := Int.emod_two_eq_zero_or_one a.layer
        have hpb := Int.emod_two_eq_zero_or_one b.layer
        split_ifs <;> first | rfl | (exfalso; omega)
  · have hsl2 : ¬ b.superLayer = a.superLayer := fun h => hsl h.symm
    simp [hsl, hsl2]

/-- Popping after pushing restores the state. -/
theorem SearchState.pop_push (s : SearchState) (p : AssPoint) : (s.push p).pop = s := by
  cases s
  simp [SearchState.push, SearchState.pop]

/-- Pushing a point changes neither the watermark nor the output list. -/
theorem SearchState.out_push (s : SearchState) (p : AssPoint) : (s.push p).out = s.out := rfl

/-- Popping a point changes neither the watermark nor the output list. -/
theorem SearchState.out_pop (s : SearchState) : s.pop.out = s.out := rfl

/-- One branch of the loop body: push, recursive call, pop. The association
sequence is restored when the recursive call restores it. -/
theorem branch_assHits (recur : List DTHitPairForFit → SearchState → SearchState)
    (hrec : ∀ pool s, (recur pool s).assHits = s.assHits)
    (pool : List DTHitPairForFit) (s : SearchState) (p : AssPoint) :
    ((recur pool (s.push p)).pop).assHits = s.assHits := by
  simp [SearchState.pop, hrec, SearchState.push]

/-- The leaf step in closed form: the candidate it may store is the trial
candidate of the association sequence. -/
theorem addHitsLeaf_eq (env : Env) (sl : DTSuperLayer) (s : SearchState) :
    addHitsLeaf env sl s =
      if s.assHits.length < s.maxfound then s
      else if (fitWithT0 env sl s.assHits).seg = none then s
      else if (trialCand env sl s.assHits).good = false then s
      else
        { assHits := s.assHits
          maxfound := max s.maxfound s.assHits.length
          result := if checkDoubleCandidatesLoop (trialCand env sl s.assHits) s.result = true
                    then s.result ++ [trialCand env sl s.assHits] else s.result } := by
  unfold addHitsLeaf
  by_cases h1 : s.assHits.length < s.maxfound
  · simp only [h1, if_true]
  · simp only [h1, if_false]
    cases hseg : (fitWithT0 env sl s.assHits).seg with
    | none => simp
    | some seg =>
      have hs : seg = trialCand env sl s.assHits := fitWithT0_seg_eq env sl s.assHits seg hseg
      subst hs
      by_cases hg : (trialCand env sl s.assHits).good = false
      · simp [hg]
      · have hmax : ∀ t : SearchState,
            (if s.assHits.length > s.maxfound then { s with maxfound := s.assHits.length } else s) = t →
            t.assHits = s.assHits ∧ t.result = s.result ∧
              t.maxfound = max s.maxfound s.assHits.length := by
          intro t ht
          subst ht
          by_cases h2 : s.assHits.length > s.maxfound
          · simp only [h2, if_true, true_and]
            omega
          · simp only [h2, if_false, true_and]
            omega
        obtain ⟨ha, hr, hm⟩ := hmax _ rfl
        simp only [hg, if_false, checkDoubleCandidates, reduceCtorEq]
        by_cases hc : checkDoubleCandidatesLoop (trialCand env sl s.assHits) s.result = true
        · simp [hr, hc, ha, hm]
        · simp [hr, hc, ha, hm]

/-- The leaf step leaves the association sequence alone. -/
theorem addHitsLeaf_assHits (env : Env) (sl : DTSuperLayer) (s : SearchState) :
    (addHitsLeaf env sl s).assHits = s.assHits := by
  rw [addHitsLeaf_eq]
  split_ifs <;> rfl

/-- Unfolding of the loop of `addHits` at a non-empty pool, with the
push/pop pairs around the two gate calls cancelled. -/
theorem addHitsLoop_cons (env : Env) (sl : DTSuperLayer)
    (recur : List DTHitPairForFit → SearchState → SearchState)
    (hit : DTHitPairForFit) (rest : List DTHitPairForFit) (s : SearchState) (found : Bool) :
    addHitsLoop env sl recur (hit :: rest) s found =
      if (fitWithT0 env sl (s.assHits ++ [(hit, DTCellSide.Left)])).seg.isSome = false ∧
         (fitWithT0 env sl (s.assHits ++ [(hit, DTCellSide.Right)])).seg.isSome = false
      then addHitsLoop env sl recur rest s found
      else
        addHitsLoop env sl recur rest
          (if (chooseSides s.assHits.length
                (fitWithT0 env sl (s.assHits ++ [(hit, DTCellSide.Left)])).seg.isSome
                (fitWithT0 env sl (s.assHits ++ [(hit, DTCellSide.Right)])).seg.isSome
                (fitWithT0 env sl (s.assHits ++ [(hit, DTCellSide.Left)])).chi2
                (fitWithT0 env sl (s.assHits ++ [(hit, DTCellSide.Right)])).chi2).2 = true
           then (recur (nextPool hit rest)
              ((if (chooseSides s.assHits.length
                    (fitWithT0 env sl (s.assHits ++ [(hit, DTCellSide.Left)])).seg.isSome
                    (fitWithT0 env sl (s.assHits ++ [(hit, DTCellSide.Right)])).seg.isSome
                    (fitWithT0 env sl (s.assHits ++ [(hit, DTCellSide.Left)])).chi2
                    (fitWithT0 env sl (s.assHits ++ [(hit, DTCellSide.Right)])).chi2).1 = true
                then (recur (nextPool hit rest) (s.push (hit, DTCellSide.Left))).pop
                else s).push (hit, DTCellSide.Right))).pop
           else
             (if (chooseSides s.assHits.length
                    (fitWithT0 env sl (s.assHits ++ [(hit, DTCellSide.Left)])).seg.isSome
                    (fitWithT0 env sl (s.assHits ++ [(hit, DTCellSide.Right)])).seg.isSome
                    (fitWithT0 env sl (s.assHits ++ [(hit, DTCellSide.Left)])).chi2
                    (fitWithT0 env sl (s.assHits ++ [(hit, DTCellSide.Right)])).chi2).1 = true
                then (recur (nextPool hit rest) (s.push (hit, DTCellSide.Left))).pop
                else s))
          true := by
  conv_lhs => unfold addHitsLoop
  simp only [SearchState.pop_push]
  rfl

/-- The loop of `addHits` restores the association sequence when the
recursive call does. -/
theorem addHitsLoop_assHits (env : Env) (sl : DTSuperLayer)
    (recur : List DTHitPairForFit → SearchState → SearchState)
    (hrec : ∀ pool s, (recur pool s).assHits = s.assHits) :
    ∀ (hits : List DTHitPairForFit) (s : SearchState) (found : Bool),
      (addHitsLoop env sl recur hits s found).1.assHits = s.assHits := by
  intro hits
  induction hits with
  | nil => intro s found; rfl
  | cons hit rest ih =>
    intro s found
    rw [addHitsLoop_cons]
    split_ifs <;> rw [ih] <;> simp only [branch_assHits recur hrec]

/-- Unfolding of `addHits` with at least one nested call available. -/
theorem addHitsAux_succ (env : Env) (sl : DTSuperLayer) (fuel : Nat)
    (hits : List DTHitPairForFit) (s : SearchState) :
    addHitsAux env sl (fuel + 1) hits s =
      if s.assHits.length + hits.length < s.maxfound then s
      else if (addHitsLoop env sl (addHitsAux env sl fuel) hits s false).2 = true
        then (addHitsLoop env sl (addHitsAux env sl fuel) hits s false).1
        else addHitsLeaf env sl (addHitsLoop env sl (addHitsAux env sl fuel) hits s false).1 :=
  rfl

/-- Backtracking: `addHits` returns with the association sequence it was entered with. -/
theorem addHitsAux_assHits (env : Env) (sl : DTSuperLayer) :
    ∀ (fuel : Nat) (hits : List DTHitPairForFit) (s : SearchState),
      (addHitsAux env sl fuel hits s).assHits = s.assHits := by
  intro fuel
  induction fuel with
  | zero => intro hits s; rfl
  | succ fuel ih =>
    intro hits s
    rw [addHitsAux_succ]
    split_ifs
    · rfl
    · exact addHitsLoop_assHits env sl _ ih hits s false
    · rw [addHitsLeaf_assHits]
      exact addHitsLoop_assHits env sl _ ih hits s false

/-- Induction principle for the loop of `addHits`. `Inv` is a condition on the
pool and the state that holds on entry, `Rel` relates watermark and output list
before and after. -/
theorem addHitsLoop_rel (env : Env) (sl : DTSuperLayer)
    (Inv : List DTHitPairForFit → SearchState → Prop) (Rel : BuildState → BuildState → Prop)
    (hrefl : ∀ b, Rel b b) (htrans : ∀ a b c, Rel a b → Rel b c → Rel a c)
    (hstep : ∀ hit rest s side, Inv (hit :: rest) s → Inv (nextPool hit rest) (s.push (hit, side)))
    (htail : ∀ hit rest s, Inv (hit :: rest) s → Inv rest s)
    (hinv : ∀ pool s t, Inv pool s → Rel s.out t.out → t.assHits = s.assHits → Inv pool t)
    (recur : List DTHitPairForFit → SearchState → SearchState)
    (hrecA : ∀ pool s, (recur pool s).assHits = s.assHits)
    (hrecR : ∀ pool s, Inv pool s → Rel s.out (recur pool s).out) :
    ∀ (hits : List DTHitPairForFit) (s : SearchState) (found : Bool), Inv hits s →
      Rel s.out (addHitsLoop env sl recur hits s found).1.out := by
  intro hits
  induction hits with
  | nil => intro s found _; exact hrefl _
  | cons hit rest ih =>
    intro s found hI
    have branch : ∀ (t : SearchState) (side : DTCellSide), Inv (hit :: rest) t →
        Rel t.out ((recur (nextPool hit rest) (t.push (hit, side))).pop).out := by
      intro t side ht
      have := hrecR _ _ (hstep hit rest t side ht)
      rwa [SearchState.out_push] at this
    have opt : ∀ (t : SearchState) (side : DTCellSide) (c : Prop) [Decidable c],
        Inv (hit :: rest) t →
        Rel t.out (if c then (recur (nextPool hit rest) (t.push (hit, side))).pop else t).out ∧
        (if c then (recur (nextPool hit rest) (t.push (hit, side))).pop else t).assHits
          = t.assHits := by
      intro t side c _ ht
      by_cases hc : c
      · simp only [hc, if_true]
        exact ⟨branch t side ht, branch_assHits recur hrecA _ _ _⟩
      · simp only [hc, if_false]
        exact ⟨hrefl _, trivial⟩
    rw [addHitsLoop_cons]
    split_ifs with h1 h2 h3 h3
    · exact ih s found (htail hit rest s hI)
    all_goals first
      | (have hL := opt s DTCellSide.Left True hI
         simp only [if_true] at hL
         have hIL := hinv _ _ _ hI hL.1 hL.2
         have hR := opt _ DTCellSide.Right True hIL
         simp only [if_true] at hR
         have hIR := hinv _ _ _ hIL hR.1 hR.2
         exact htrans _ _ _ (htrans _ _ _ hL.1 hR.1) (ih _ true (htail hit rest _ hIR)))
      | (have hR := opt s DTCellSide.Right True hI
         simp only [if_true] at hR
         have hIR := hinv _ _ _ hI hR.1 hR.2
         exact htrans _ _ _ hR.1 (ih _ true (htail hit rest _ hIR)))
      | (have hL := opt s DTCellSide.Left True hI
         simp only [if_true] at hL
         have hIL := hinv _ _ _ hI hL.1 hL.2
         exact htrans _ _ _ hL.1 (ih _ true (htail hit rest _ hIL)))
      | exact ih s true (htail hit rest s hI)

/-- Induction principle for `addHits`: a relation between watermark and output
list that is reflexive, transitive and holds across the leaf step holds across
every call entered in a configuration satisfying `Inv`. -/
theorem addHitsAux_rel (env : Env) (sl : DTSuperLayer)
    (Inv : List DTHitPairForFit → SearchState → Prop) (Rel : BuildState → BuildState → Prop)
    (hrefl : ∀ b, Rel b b) (htrans : ∀ a b c, Rel a b → Rel b c → Rel a c)
    (hstep : ∀ hit rest s side, Inv (hit :: rest) s → Inv (nextPool hit rest) (s.push (hit, side)))
    (htail : ∀ hit rest s, Inv (hit :: rest) s → Inv rest s)
    (hinv : ∀ pool s t, Inv pool s → Rel s.out t.out → t.assHits = s.assHits → Inv pool t)
    (hleaf : ∀ s, Inv [] s → Rel s.out (addHitsLeaf env sl s).out) :
    ∀ (fuel : Nat) (hits : List DTHitPairForFit) (s : SearchState), Inv hits s →
      Rel s.out (addHitsAux env sl fuel hits s).out := by
  intro fuel
  induction fuel with
  | zero => intro hits s _; exact hrefl _
  | succ fuel ih =>
    intro hits s hI
    have hloop := addHitsLoop_rel env sl Inv Rel hrefl htrans hstep htail hinv
      (addHitsAux env sl fuel) (addHitsAux_assHits env sl fuel) ih hits s false hI
    have hA := addHitsLoop_assHits env sl (addHitsAux env sl fuel)
      (addHitsAux_assHits env sl fuel) hits s false
    have hnil : ∀ (l : List DTHitPairForFit) (t : SearchState), Inv l t → Inv [] t := by
      intro l
      induction l with
      | nil => intro t h; exact h
      | cons a l ihl => intro t h; exact ihl t (htail a l t h)
    rw [addHitsAux_succ]
    split_ifs
    · exact hrefl _
    · exact hloop
    · exact htrans _ _ _ hloop (hleaf _ (hnil _ _ (hinv _ _ _ hI hloop hA)))

/-- The pool handed to a recursive call is no longer than the rest of the current pool. -/
theorem nextPool_length_le (hit : DTHitPairForFit) (rest : List DTHitPairForFit) :
    (nextPool hit rest).length ≤ rest.length := by
  unfold nextPool
  rw [List.length_reverse]
  exact List.length_filter_le _ _

/-- The loop of `addHits` only consults the recursive call on pools strictly
shorter than its own. -/
theorem addHitsLoop_congr (env : Env) (sl : DTSuperLayer)
    (r1 r2 : List DTHitPairForFit → SearchState → SearchState) (k : Nat)
    (h : ∀ pool s, pool.length < k → r1 pool s = r2 pool s) :
    ∀ (hits : List DTHitPairForFit) (s : SearchState) (found : Bool), hits.length ≤ k →
      addHitsLoop env sl r1 hits s found = addHitsLoop env sl r2 hits s found := by
  intro hits
  induction hits with
  | nil => intro s found _; rfl
  | cons hit rest ih =>
    intro s found hk
    have hlen : (nextPool hit rest).length < k := by
      have := nextPool_length_le hit rest
      simp only [List.length_cons] at hk
      omega
    have e : ∀ t, r1 (nextPool hit rest) t = r2 (nextPool hit rest) t := fun t => h _ t hlen
    have hrest : rest.length ≤ k := by
      simp only [List.length_cons] at hk
      omega
    rw [addHitsLoop_cons, addHitsLoop_cons]
    simp only [e, ih _ _ hrest]

/-- The recursion budget of `addHits` is never exhausted: any two budgets
above the pool length give the same result, so `addHits` is the function the
source defines by recursion. -/
theorem addHitsAux_fuel (env : Env) (sl : DTSuperLayer) :
    ∀ (fuel1 fuel2 : Nat) (hits : List DTHitPairForFit) (s : SearchState),
      hits.length < fuel1 → hits.length < fuel2 →
      addHitsAux env sl fuel1 hits s = addHitsAux env sl fuel2 hits s := by
  intro fuel1
  induction fuel1 with
  | zero => intro fuel2 hits s h1 _; exact absurd h1 (Nat.not_lt_zero _)
  | succ f1 ih =>
    intro fuel2 hits s h1 h2
    cases fuel2 with
    | zero => exact absurd h2 (Nat.not_lt_zero _)
    | succ f2 =>
      have hc := addHitsLoop_congr env sl (addHitsAux env sl f1) (addHitsAux env sl f2)
        hits.length (fun pool t hp => ih f2 pool t (by omega) (by omega)) hits s false
        (Nat.le_refl _)
      rw [addHitsAux_succ, addHitsAux_succ, hc]

/-- The recursive equation of `addHits`: the recursive calls are `addHits` itself. -/
theorem addHits_eq (env : Env) (sl : DTSuperLayer) (hits : List DTHitPairForFit)
    (s : SearchState) :
    addHits env sl hits s =
      if s.assHits.length + hits.length < s.maxfound then s
      else if (addHitsLoop env sl (addHits env sl) hits s false).2 = true
        then (addHitsLoop env sl (addHits env sl) hits s false).1
        else addHitsLeaf env sl (addHitsLoop env sl (addHits env sl) hits s false).1 := by
  have hc := addHitsLoop_congr env sl (addHitsAux env sl hits.length) (addHits env sl)
    hits.length
    (fun pool t hp => addHitsAux_fuel env sl hits.length (pool.length + 1) pool t hp
      (Nat.lt_succ_self _))
    hits s false (Nat.le_refl _)
  unfold addHits at hc ⊢
  rw [addHitsAux_succ, hc]

/-- Scanning a list stops at the latest at an element failing the test. -/
theorem takeWhile_append_stop {α : Type} (q : α → Bool) (l1 l2 : List α) (x : α)
    (hx : q x = false) : (l1 ++ x :: l2).takeWhile q = l1.takeWhile q := by
  induction l1 with
  | nil => simp [List.takeWhile, hx]
  | cons a l1 ih =>
    simp only [List.cons_append, List.takeWhile_cons, ih]

/-- Every `lastHit` the reverse iterator of `buildSegments` visits for the hit
`firstHit` lies behind `firstHit` in the hit list, so the scan from
`firstHit + 1` up to `lastHit` that builds the pool ends inside the list. -/
theorem lastHit_mem_after (before after : List DTHitPairForFit) (firstHit lastHit : DTHitPairForFit)
    (h : lastHit ∈ (before ++ firstHit :: after).reverse.takeWhile
      (fun l => l.ptr != firstHit.ptr)) :
    lastHit ∈ after := by
  have hrev : (before ++ firstHit :: after).reverse
      = after.reverse ++ firstHit :: before.reverse := by
    simp
  rw [hrev, takeWhile_append_stop _ _ _ _ (by simp)] at h
  exact List.mem_reverse.mp ((List.takeWhile_sublist _).subset h)

/-- A loop preserves what its body preserves. -/
theorem foldl_preserves {α β : Type} (Q : β → Prop) (f : β → α → β)
    (hf : ∀ b a, Q b → Q (f b a)) (l : List α) : ∀ b, Q b → Q (l.foldl f b) := by
  induction l with
  | nil => intro b h; exact h
  | cons a l ih => intro b h; exact ih _ (hf b a h)

/-- Invariant principle for the seed loops of `buildSegments`: a property of
the candidate list that holds for the empty list and is kept by every
top-level call of `addHits` (entered with a geometry-compatible seed pair, the
pool of that pair and the watermark 3) holds for the list handed to the
cleaner. -/
theorem collectCandidates_inv (env : Env) (sl : DTSuperLayer)
    (P : List DTSegmentCand → Prop) (h0 : P [])
    (hadd : ∀ (firstHit lastHit : DTHitPairForFit) (after : List DTHitPairForFit)
      (firstLR lastLR : DTCellSide) (res : List DTSegmentCand),
      geometryFilter firstHit.id lastHit.id = true → P res →
      P (addHits env sl (seedPool firstHit lastHit after)
          { assHits := [(firstHit, firstLR), (lastHit, lastLR)], maxfound := 3,
            result := res }).result)
    (maxfound : Nat) (hits : List DTHitPairForFit) :
    P (collectCandidates env maxfound sl hits).result := by
  have hsides : ∀ DAlphaMax firstHit lastHit after (st : BuildState) firstLR lastLR,
      geometryFilter firstHit.id lastHit.id = true → P st.result →
      P (seedSides env sl DAlphaMax firstHit lastHit (seedPool firstHit lastHit after)
          st firstLR lastLR).result := by
    intro DAlphaMax firstHit lastHit after st firstLR lastLR hg hst
    unfold seedSides
    split_ifs
    · exact hst
    · exact hadd firstHit lastHit after firstLR lastLR st.result hg hst
  have hpair : ∀ DAlphaMax firstHit after (st : BuildState) lastHit,
      P st.result → P (seedPair env sl DAlphaMax firstHit after st lastHit).result := by
    intro DAlphaMax firstHit after st lastHit hst
    unfold seedPair
    split_ifs with hg
    · exact hst
    · have hg2 : geometryFilter firstHit.id lastHit.id = true := by
        cases h : geometryFilter firstHit.id lastHit.id
        · exact absurd h hg
        · rfl
      apply foldl_preserves (fun st : BuildState => P st.result) _ _ _ _ hst
      intro b firstLR hb
      apply foldl_preserves (fun st : BuildState => P st.result) _ _ _ _ hb
      intro b2 lastLR hb2
      exact hsides _ _ _ _ _ _ _ hg2 hb2
  have hfirst : ∀ DAlphaMax (rest : List DTHitPairForFit) (st : BuildState),
      P st.result → P (firstHitLoop env sl DAlphaMax hits rest st).result := by
    intro DAlphaMax rest
    induction rest with
    | nil => intro st h; exact h
    | cons firstHit after ih =>
      intro st h
      unfold firstHitLoop
      apply ih
      unfold lastHitLoop
      apply foldl_preserves (fun st : BuildState => P st.result) _ _ _ _ h
      intro b lastHit hb
      exact hpair _ _ _ _ _ hb
  exact hfirst _ _ _ h0

/-! ## Theorems: no two set-equal candidates -/

/-- Set-equality of candidates does not depend on the order of the two candidates. -/
theorem DTSegmentCand.setEqual_comm (c d : DTSegmentCand) : c.setEqual d = d.setEqual c := by
  unfold DTSegmentCand.setEqual
  exact Bool.and_comm _ _

/-- The leaf step keeps the output list free of set-equal pairs. -/
theorem addHitsLeaf_noSetEqualPair (env : Env) (sl : DTSuperLayer) (s : SearchState)
    (h : NoSetEqualPair s.result) : NoSetEqualPair (addHitsLeaf env sl s).result := by
  rw [addHitsLeaf_eq]
  split_ifs with h1 h2 h3 hc
  · exact h
  · exact h
  · exact h
  · show NoSetEqualPair (s.result ++ [trialCand env sl s.assHits])
    unfold NoSetEqualPair at *
    rw [List.pairwise_append]
    refine ⟨h, List.pairwise_singleton _ _, ?_⟩
    intro a ha b hb
    rw [List.mem_singleton] at hb
    subst hb
    cases hab : a.setEqual (trialCand env sl s.assHits)
    · rfl
    · have hfalse : checkDoubleCandidatesLoop (trialCand env sl s.assHits) s.result = false :=
        (checkDoubleCandidatesLoop_eq_false_iff _ _).mpr ⟨a, ha, Or.inl hab⟩
      rw [hfalse] at hc
      exact absurd hc (by decide)
  · exact h

/-- Every call of `addHits`, at any recursion budget, keeps the output list
free of set-equal pairs. -/
theorem addHitsAux_noSetEqualPair (env : Env) (sl : DTSuperLayer) (fuel : Nat)
    (hits : List DTHitPairForFit) (s : SearchState) (h : NoSetEqualPair s.result) :
    NoSetEqualPair (addHitsAux env sl fuel hits s).result := by
  have := addHitsAux_rel env sl (fun _ _ => True)
    (fun a b => NoSetEqualPair a.result → NoSetEqualPair b.result)
    (fun _ h => h) (fun _ _ _ h1 h2 h => h2 (h1 h))
    (fun _ _ _ _ _ => trivial) (fun _ _ _ _ => trivial) (fun _ _ _ _ _ _ => trivial)
    (fun s _ h => addHitsLeaf_noSetEqualPair env sl s h) fuel hits s trivial
  exact this h

/-- C5: the recursive search never emits two set-equal candidates. If the
output list holds no two set-equal candidates when `addHits` is entered, it
holds none when `addHits` returns, for every association sequence, pool,
watermark and fit behaviour; hence the list `buildSegments` hands to the
cleaner holds no two candidates with identical association points and sides. -/
theorem addHits_noSetEqualPair (env : Env) (sl : DTSuperLayer) :
    (∀ (hits : List DTHitPairForFit) (s : SearchState),
      NoSetEqualPair s.result → NoSetEqualPair (addHits env sl hits s).result) ∧
    (∀ (maxfound : Nat) (hits : List DTHitPairForFit),
      NoSetEqualPair (collectCandidates env maxfound sl hits).result) := by
  constructor
  · intro hits s h
    exact addHitsAux_noSetEqualPair env sl _ hits s h
  · intro maxfound hits
    apply collectCandidates_inv env sl NoSetEqualPair List.Pairwise.nil
    intro firstHit lastHit after firstLR lastLR res _ hres
    exact addHitsAux_noSetEqualPair env sl _ _ _ hres

/-- Witness of `addHits_noSetEqualPair`: a leaf call whose candidate is
already in the output list. -/
theorem addHits_noSetEqualPair_witness :
    NoSetEqualPair [candOf threePoints 1] ∧
    NoSetEqualPair (addHits (constEnv 1 1) sl1 []
      { assHits := threePoints, maxfound := 3, result := [candOf threePoints 1] }).result :=
  ⟨by simp [NoSetEqualPair],
   (addHits_noSetEqualPair (constEnv 1 1) sl1).1 []
     { assHits := threePoints, maxfound := 3, result := [candOf threePoints 1] }
     (by simp [NoSetEqualPair])⟩

/-! ## Theorems: pairwise geometry compatibility of candidates -/

/-- Compatibility of two hits follows from one call of the filter. -/
theorem compatible_of_filter (a b : DTHitPairForFit) (h : geometryFilter a.id b.id = true) :
    compatible a b :=
  ⟨h, by rw [geometryFilter_comm]; exact h⟩

/-- Compatibility is symmetric. -/
theorem compatible_symm (a b : DTHitPairForFit) (h : compatible a b) : compatible b a :=
  ⟨h.2, h.1⟩

/-- Range insertion into a point set appends a sublist of the inserted range. -/
theorem insertRange_sublist (ps : List AssPoint) :
    ∀ s : List AssPoint, ∃ l, l.Sublist ps ∧ AssPointCont.insertRange s ps = s ++ l := by
  induction ps with
  | nil => intro s; exact ⟨[], List.Sublist.refl _, by simp [AssPointCont.insertRange]⟩
  | cons p ps ih =>
    intro s
    obtain ⟨l, hl, he⟩ := ih (AssPointCont.insert s p)
    have hfold : AssPointCont.insertRange s (p :: ps)
        = AssPointCont.insertRange (AssPointCont.insert s p) ps := rfl
    rw [hfold, he]
    unfold AssPointCont.insert
    split_ifs
    · exact ⟨l, List.Sublist.cons _ hl, rfl⟩
    · exact ⟨p :: l, List.Sublist.cons₂ _ hl, by simp⟩

/-- The point set of the trial candidate is a sublist of the association sequence. -/
theorem trialCand_sublist (env : Env) (sl : DTSuperLayer) (assHits : List AssPoint) :
    (trialCand env sl assHits).theHits.Sublist assHits := by
  obtain ⟨l, hl, he⟩ := insertRange_sublist assHits []
  show (AssPointCont.insertRange [] assHits).Sublist assHits
  rw [he]
  simpa using hl

/-- The leaf step stores only candidates with pairwise compatible hits when
the association sequence is pairwise compatible. -/
theorem addHitsLeaf_compatible (env : Env) (sl : DTSuperLayer) (s : SearchState)
    (hs : PairwiseCompatible s.assHits) (h : AllPairwiseCompatible s.result) :
    AllPairwiseCompatible (addHitsLeaf env sl s).result := by
  rw [addHitsLeaf_eq]
  split_ifs with h1 h2 h3 hc
  · exact h
  · exact h
  · exact h
  · show AllPairwiseCompatible (s.result ++ [trialCand env sl s.assHits])
    intro c hcm
    rcases List.mem_append.mp hcm with hc1 | hc1
    · exact h c hc1
    · rw [List.mem_singleton] at hc1
      subst hc1
      exact List.Pairwise.sublist (trialCand_sublist env sl s.assHits) hs
  · exact h

/-- Pushing a pool hit and shrinking the pool keeps the search geometry-compatible. -/
theorem seedCompatible_step (hit : DTHitPairForFit) (rest : List DTHitPairForFit)
    (s : SearchState) (side : DTCellSide) (h : SeedCompatible (hit :: rest) s) :
    SeedCompatible (nextPool hit rest) (s.push (hit, side)) := by
  obtain ⟨hp, hpool⟩ := h
  constructor
  · show PairwiseCompatible (s.assHits ++ [(hit, side)])
    unfold PairwiseCompatible at *
    rw [List.pairwise_append]
    refine ⟨hp, List.pairwise_singleton _ _, ?_⟩
    intro a ha b hb
    rw [List.mem_singleton] at hb
    subst hb
    exact hpool hit (List.mem_cons_self _ _) a ha
  · intro h hh a ha
    have hmem : h ∈ rest ∧ geometryFilter h.id hit.id = true := by
      unfold nextPool at hh
      rw [List.mem_reverse, List.mem_filter] at hh
      exact hh
    have ha2 : a ∈ s.assHits ++ [(hit, side)] := ha
    rcases List.mem_append.mp ha2 with ha1 | ha1
    · exact hpool h (List.mem_cons_of_mem _ hmem.1) a ha1
    · rw [List.mem_singleton] at ha1
      subst ha1
      exact compatible_symm _ _ (compatible_of_filter _ _ hmem.2)

/-- Every call of `addHits` entered in a geometry-compatible configuration
stores only candidates with pairwise compatible hits. -/
theorem addHitsAux_compatible (env : Env) (sl : DTSuperLayer) (fuel : Nat)
    (hits : List DTHitPairForFit) (s : SearchState) (hs : SeedCompatible hits s)
    (h : AllPairwiseCompatible s.result) :
    AllPairwiseCompatible (addHitsAux env sl fuel hits s).result := by
  have := addHitsAux_rel env sl SeedCompatible
    (fun a b => AllPairwiseCompatible a.result → AllPairwiseCompatible b.result)
    (fun _ h => h) (fun _ _ _ h1 h2 h => h2 (h1 h))
    seedCompatible_step
    (fun hit rest s h => ⟨h.1, fun x hx a ha => h.2 x (List.mem_cons_of_mem _ hx) a ha⟩)
    (fun pool s t h _ ht => by
      unfold SeedCompatible at *
      rw [ht]
      exact h)
    (fun s hI h => addHitsLeaf_compatible env sl s hI.1 h) fuel hits s hs
  exact this h

/-- The seed pair and its pool form a geometry-compatible configuration. -/
theorem seedCompatible_seed (firstHit lastHit : DTHitPairForFit) (after : List DTHitPairForFit)
    (firstLR lastLR : DTCellSide) (maxfound : Nat) (res : List DTSegmentCand)
    (hg : geometryFilter firstHit.id lastHit.id = true) :
    SeedCompatible (seedPool firstHit lastHit after)
      { assHits := [(firstHit, firstLR), (lastHit, lastLR)], maxfound := maxfound,
        result := res } := by
  constructor
  · show PairwiseCompatible [(firstHit, firstLR), (lastHit, lastLR)]
    unfold PairwiseCompatible
    simp only [List.pairwise_cons, List.mem_singleton, forall_eq, List.not_mem_nil,
      false_implies, implies_true, List.Pairwise.nil, and_true]
    exact compatible_of_filter _ _ hg
  · intro h hh a ha
    unfold seedPool at hh
    rw [List.mem_filter, Bool.and_eq_true] at hh
    have ha2 : a = (firstHit, firstLR) ∨ a = (lastHit, lastLR) := by
      simpa using ha
    rcases ha2 with rfl | rfl
    · exact compatible_symm _ _ (compatible_of_filter _ _ hh.2.2)
    · exact compatible_symm _ _ (compatible_of_filter _ _ hh.2.1)

/-- C4: for every hit list given to `buildSegments`, every watermark on entry
and every behaviour of the fit, the geometry and the configuration, every
candidate that `addHits` has appended to the output list (the list handed to
the cleaner) has association points whose hits are pairwise compatible: for
any two of them, at distinct positions, `geometryFilter` is true in both
orders, be they the two seed hits, a seed hit and an added hit, or two added
hits. -/
theorem buildSegments_candidates_compatible (env : Env) (maxfound : Nat) (sl : DTSuperLayer)
    (hits : List DTHitPairForFit) :
    ∀ c ∈ (collectCandidates env maxfound sl hits).result,
      c.theHits.Pairwise (fun p q =>
        geometryFilter p.1.id q.1.id = true ∧ geometryFilter q.1.id p.1.id = true) := by
  have key : AllPairwiseCompatible (collectCandidates env maxfound sl hits).result := by
    apply collectCandidates_inv env sl AllPairwiseCompatible
    · intro c hc
      exact absurd hc (List.not_mem_nil _)
    · intro firstHit lastHit after firstLR lastLR res hg hres
      exact addHitsAux_compatible env sl _ _ _
        (seedCompatible_seed firstHit lastHit after firstLR lastLR 3 res hg) hres
  exact key

/-- Witness of `buildSegments_candidates_compatible`: a candidate collected
from three hits in layers 1, 2, 3. -/
theorem buildSegments_candidates_compatible_witness :
    threeHitsCand ∈ (collectCandidates (constEnv 1 1) 7 sl1 threeHits).result ∧
    threeHitsCand.theHits.Pairwise (fun p q =>
      geometryFilter p.1.id q.1.id = true ∧ geometryFilter q.1.id p.1.id = true) :=
  ⟨by decide,
   buildSegments_candidates_compatible (constEnv 1 1) 7 sl1 threeHits threeHitsCand (by decide)⟩

/-! ## Theorems: same layer, symmetry, backtracking -/

/-- C11: two wire identifiers in the same layer (same super-layer index and
same layer index) never pass the filter, whatever the two wire numbers, equal
ones included. -/
theorem geometryFilter_same_layer (first second : DTWireId)
    (hsl : first.superLayer = second.superLayer) (hl : first.layer = second.layer) :
    geometryFilter first second = false := by
  unfold geometryFilter
  have h0 : (first.layer - second.layer).natAbs = 0 := by
    rw [hl, sub_self]
    rfl
  simp only [ne_eq, hsl, not_true_eq_false, if_false, h0, if_true]

/-- Witness of `geometryFilter_same_layer`: wires 5 and 6 of layer 2 in super-layer 1. -/
theorem geometryFilter_same_layer_witness :
    (1 : Int) = 1 ∧ (2 : Int) = 2 ∧
    geometryFilter { superLayer := 1, layer := 2, wire := 5 }
      { superLayer := 1, layer := 2, wire := 6 } = false :=
  ⟨rfl, rfl,
   geometryFilter_same_layer { superLayer := 1, layer := 2, wire := 5 }
     { superLayer := 1, layer := 2, wire := 6 } rfl rfl⟩

/-- C18: the geometry filter is symmetric in its two arguments for all
super-layer, layer and wire integers, although the sign of the wire distance
is flipped according to the layer parity of the second argument only: at an
odd layer distance the two layers have different parity and both orders see
the same signed distance, at distance 2 the signed distance changes sign and
the window (-2, 2) is symmetric. -/
theorem geometryFilter_symmetric (a b : DTWireId) :
    geometryFilter a b = geometryFilter b a ∧
    (geometryFilter a b = true ↔ geometryFilter b a = true) := by
  have h := geometryFilter_comm a b
  exact ⟨h, by rw [h]⟩

/-- C16: backtracking restores the association sequence. For every
association sequence, pool, watermark, output list and fit behaviour the
sequence with which `addHits` returns is the one it was entered with, at any
recursion budget; and around each gate check the sequence is pushed and popped
back to what it was, `fitWithT0` itself taking it as an input only. -/
theorem addHits_restores_assHits (env : Env) (sl : DTSuperLayer)
    (hits : List DTHitPairForFit) (s : SearchState) :
    (addHits env sl hits s).assHits = s.assHits ∧
    (∀ fuel : Nat, (addHitsAux env sl fuel hits s).assHits = s.assHits) ∧
    (∀ p : AssPoint, (s.push p).pop = s) := by
  refine ⟨?_, ?_, ?_⟩
  · exact addHitsAux_assHits env sl _ hits s
  · intro fuel
    exact addHitsAux_assHits env sl fuel hits s
  · intro p
    exact SearchState.pop_push s p

/-! ## Theorems: two candidates sharing three hits -/

/-- The output list after the leaf step is the list before it, or that list
after submitting the trial candidate. -/
theorem addHitsLeaf_result (env : Env) (sl : DTSuperLayer) (s : SearchState) :
    (addHitsLeaf env sl s).result = s.result ∨
    (addHitsLeaf env sl s).result = submitCandidate s.result (trialCand env sl s.assHits) := by
  rw [addHitsLeaf_eq]
  split_ifs
  · exact Or.inl rfl
  · exact Or.inl rfl
  · exact Or.inl rfl
  · right
    simp only [submitCandidate, checkDoubleCandidates, *, if_true]
  · right
    simp only [submitCandidate, checkDoubleCandidates, *]
    rfl

/-- Submitting a candidate to the empty list stores it. -/
theorem submitCandidate_nil (seg : DTSegmentCand) : submitCandidate [] seg = [seg] := rfl

/-- Submitting to a one-element list: the new candidate is dropped exactly
when the stored one equals or dominates it. -/
theorem submitCandidate_singleton (c seg : DTSegmentCand) :
    submitCandidate [c] seg =
      if c.setEqual seg = true ∨
          (c.nHits ≥ seg.nHits ∧ c.chi2ndof < seg.chi2ndof
            ∧ c.nSharedHitPairs seg > intOfNHitsMinus2 seg.nHits)
      then [c] else [c, seg] := by
  unfold submitCandidate checkDoubleCandidates
  simp only [checkDoubleCandidatesLoop]
  by_cases h1 : c.setEqual seg = true
  · simp [h1]
  · by_cases h2 : c.nHits ≥ seg.nHits ∧ c.chi2ndof < seg.chi2ndof
        ∧ c.nSharedHitPairs seg > intOfNHitsMinus2 seg.nHits
    · simp only [h1, h2, if_true, if_false, or_true]
      rfl
    · simp only [h1, h2, if_false, or_self]
      rfl

/-- C12 (as stated, refuted): when the worse candidate `candB` is submitted
first, the better candidate `candA` is accepted after it and the list holds
both; the filter never removes a stored candidate. -/
theorem submitCandidate_order_counterexample :
    ¬ (∀ A B : DTSegmentCand, A.nHits = 4 → B.nHits = 4 → A.setEqual B = false →
        A.nSharedHitPairs B = 3 → A.chi2ndof < B.chi2ndof →
        submitCandidate (submitCandidate [] A) B = [A] ∧
        submitCandidate (submitCandidate [] B) A = [A]) := by
  intro h
  have h1 := (h candA candB (by decide) (by decide) (by decide) (by decide) (by decide)).2
  have h2 : submitCandidate (submitCandidate [] candB) candA = [candB, candA] := by decide
  rw [h2] at h1
  revert h1
  decide

/-- C12 (amended): for two distinct 4-hit candidates `A` and `B` sharing 3
hits with `chi2ndof A < chi2ndof B`, submitted to the filter from the empty
list: when `A` is submitted first the list ends as `[A]`, `B` being rejected;
when `B` is submitted first the list ends as `[B, A]`, both being kept. -/
theorem submitCandidate_two_candidates (A B : DTSegmentCand)
    (hA : A.nHits = 4) (hB : B.nHits = 4) (hne : A.setEqual B = false)
    (hshared : A.nSharedHitPairs B = 3) (hchi : A.chi2ndof < B.chi2ndof) :
    submitCandidate (submitCandidate [] A) B = [A] ∧
    submitCandidate (submitCandidate [] B) A = [B, A] := by
  have h42 : intOfNHitsMinus2 4 = 2 := by decide
  constructor
  · rw [submitCandidate_nil, submitCandidate_singleton, hB, hA, h42, hshared]
    have hdom : (4 : Nat) ≥ 4 ∧ A.chi2ndof < B.chi2ndof ∧ (3 : Int) > 2 :=
      ⟨Nat.le_refl _, hchi, by decide⟩
    rw [if_pos (Or.inr hdom)]
  · rw [submitCandidate_nil, submitCandidate_singleton]
    have hne2 : ¬ B.setEqual A = true := by
      rw [DTSegmentCand.setEqual_comm, hne]
      decide
    have hnd : ¬ (B.nHits ≥ A.nHits ∧ B.chi2ndof < A.chi2ndof
        ∧ B.nSharedHitPairs A > intOfNHitsMinus2 A.nHits) := by
      intro hd
      exact absurd hd.2.1 (not_lt.mpr (le_of_lt hchi))
    rw [if_neg (by
      intro hor
      rcases hor with h | h
      · exact hne2 h
      · exact hnd h)]

/-- Witness of `submitCandidate_two_candidates`: the candidates `candA` and `candB`. -/
theorem submitCandidate_two_candidates_witness :
    candA.nHits = 4 ∧ candB.nHits = 4 ∧ candA.setEqual candB = false ∧
    candA.nSharedHitPairs candB = 3 ∧ candA.chi2ndof < candB.chi2ndof ∧
    submitCandidate (submitCandidate [] candA) candB = [candA] ∧
    submitCandidate (submitCandidate [] candB) candA = [candB, candA] :=
  ⟨by decide, by decide, by decide, by decide, by decide,
   submitCandidate_two_candidates candA candB (by decide) (by decide) (by decide) (by decide)
     (by decide)⟩

/-! ## Theorems: hit lists without a compatible pair -/

/-- A loop whose body changes nothing on the elements it visits changes nothing. -/
theorem foldl_eq_self {α β : Type} (f : β → α → β) (l : List α) (b : β)
    (h : ∀ a ∈ l, ∀ c, f c a = c) : l.foldl f b = b := by
  induction l generalizing b with
  | nil => rfl
  | cons a l ih =>
    simp only [List.foldl_cons]
    rw [h a (List.mem_cons_self _ _) b]
    exact ih b (fun x hx c => h x (List.mem_cons_of_mem _ hx) c)

/-- Without a pair of hits passing the filter the `firstHit` loop leaves the
watermark and the candidate list as they were: every seed pair is skipped. -/
theorem firstHitLoop_no_seed (env : Env) (sl : DTSuperLayer) (DAlphaMax : ℚ)
    (hits : List DTHitPairForFit)
    (hp : hits.Pairwise (fun a b => geometryFilter a.id b.id = false)) :
    ∀ (rest before : List DTHitPairForFit) (st : BuildState), hits = before ++ rest →
      firstHitLoop env sl DAlphaMax hits rest st = st := by
  intro rest
  induction rest with
  | nil => intro before st _; rfl
  | cons firstHit after ih =>
    intro before st hsplit
    unfold firstHitLoop
    have hlast : lastHitLoop env sl DAlphaMax hits firstHit after st = st := by
      unfold lastHitLoop
      apply foldl_eq_self
      intro lastHit hmem c
      have hin : lastHit ∈ after := by
        rw [hsplit] at hmem
        exact lastHit_mem_after before after firstHit lastHit hmem
      have hpair : geometryFilter firstHit.id lastHit.id = false := by
        rw [hsplit, List.pairwise_append] at hp
        exact (List.pairwise_cons.mp hp.2.1).1 lastHit hin
      unfold seedPair
      rw [if_pos hpair]
    rw [hlast]
    apply ih (before ++ [firstHit]) st
    rw [hsplit]
    simp

/-- The wire identifiers of the hits built by `initHits` are those of the raw pairs. -/
theorem initHits_ids (pairs : List DTRecHit1DPair) :
    (initHits pairs).map (fun h => h.id) = pairs.map (fun q => q.wireId) := by
  unfold initHits
  rw [List.map_map]
  have h : ((fun h : DTHitPairForFit => h.id) ∘
      fun ip : Nat × DTRecHit1DPair => ({ ptr := ip.1, id := ip.2.wireId } : DTHitPairForFit))
      = (fun q : DTRecHit1DPair => q.wireId) ∘ Prod.snd := rfl
  rw [h, ← List.map_map, List.enum_map_snd]

/-- C13: for a hit list in which no pair of hits, the first preceding the
last, passes `geometryFilter`, the seed loops of `buildSegments` end with the
watermark they started with and the empty candidate list, whatever the fit
and the geometry are (every top-level `addHits` would set the watermark to 3):
no seed is built, the cleaner receives the empty list, and `reconstruct`
yields no segment whenever the cleaner maps the empty list to the empty list. -/
theorem buildSegments_no_compatible_pair (env : Env) (maxfound : Nat) (sl : DTSuperLayer) :
    (∀ hits : List DTHitPairForFit,
      hits.Pairwise (fun a b => geometryFilter a.id b.id = false) →
      collectCandidates env maxfound sl hits = { maxfound := maxfound, result := [] } ∧
      (hits.length ≤ env.theMaxAllowedHits →
        buildSegments env maxfound sl hits = (env.clean [], maxfound))) ∧
    (∀ pairs : List DTRecHit1DPair,
      pairs.Pairwise (fun a b => geometryFilter a.wireId b.wireId = false) →
      env.clean [] = [] → reconstruct env maxfound sl pairs = []) := by
  have hcollect : ∀ hits : List DTHitPairForFit,
      hits.Pairwise (fun a b => geometryFilter a.id b.id = false) →
      collectCandidates env maxfound sl hits = { maxfound := maxfound, result := [] } := by
    intro hits hp
    unfold collectCandidates
    exact firstHitLoop_no_seed env sl _ hits hp hits [] _ rfl
  refine ⟨?_, ?_⟩
  · intro hits hp
    refine ⟨hcollect hits hp, ?_⟩
    intro hle
    unfold buildSegments
    rw [if_neg (by omega), hcollect hits hp]
  · intro pairs hp hclean
    have hp2 : (initHits pairs).Pairwise (fun a b => geometryFilter a.id b.id = false) := by
      have h1 : ((initHits pairs).map (fun h => h.id)).Pairwise
          (fun a b => geometryFilter a b = false) := by
        rw [initHits_ids]
        exact List.pairwise_map.mpr hp
      exact List.pairwise_map.mp h1
    unfold reconstruct buildSegments
    by_cases hlen : (initHits pairs).length > env.theMaxAllowedHits
    · simp [hlen]
    · simp [hlen, hcollect _ hp2, hclean]

/-- Witness of `buildSegments_no_compatible_pair`: three hits in layers 1, 5, 9
of one super-layer. -/
theorem buildSegments_no_compatible_pair_witness :
    farHits.Pairwise (fun a b => geometryFilter a.id b.id = false) ∧
    collectCandidates (constEnv 1 1) 7 sl1 farHits = { maxfound := 7, result := [] } ∧
    farPairs.Pairwise (fun a b => geometryFilter a.wireId b.wireId = false) ∧
    (constEnv 1 1).clean [] = [] ∧
    reconstruct (constEnv 1 1) 7 sl1 farPairs = [] :=
  ⟨by decide,
   ((buildSegments_no_compatible_pair (constEnv 1 1) 7 sl1).1 farHits (by decide)).1,
   by decide, rfl,
   (buildSegments_no_compatible_pair (constEnv 1 1) 7 sl1).2 farPairs (by decide) rfl⟩

/-! ## Theorems: one iteration of the loop of `addHits` -/

/-- One iteration of the loop of `addHits`: a hit failing the gate on both
sides is skipped; otherwise the chosen branches are run on the shrunk pool and
`foundSomething` is set. -/
theorem addHitsLoop_step (env : Env) (sl : DTSuperLayer)
    (recur : List DTHitPairForFit → SearchState → SearchState)
    (hit : DTHitPairForFit) (rest : List DTHitPairForFit) (s : SearchState) (found : Bool) :
    addHitsLoop env sl recur (hit :: rest) s found =
      if (gateLeft env sl s hit).seg.isSome = false ∧ (gateRight env sl s hit).seg.isSome = false
      then addHitsLoop env sl recur rest s found
      else addHitsLoop env sl recur rest
        (branchState recur (nextPool hit rest) hit (sidesAt env sl s hit) s) true := by
  rw [addHitsLoop_cons]
  rfl

/-- The verdicts after the left/right choice, case by case. The differences
are the double subtractions of the source. -/
theorem chooseSides_cases (size : Nat) (l r : Bool) (chi2l chi2r : ℚ) :
    (size > 3 → l = true → r = true → chi2l < subDouble chi2r tenthDouble →
      chooseSides size l r chi2l chi2r = (true, false)) ∧
    (size > 3 → l = true → r = true → IsDouble chi2l → IsDouble chi2r →
      chi2r < subDouble chi2l tenthDouble →
      chooseSides size l r chi2l chi2r = (false, true)) ∧
    (size > 3 → l = true → r = true → ¬ chi2l < subDouble chi2r tenthDouble →
      ¬ chi2r < subDouble chi2l tenthDouble →
      chooseSides size l r chi2l chi2r = (true, true)) ∧
    (size > 3 → l = true → r = true → IsDouble chi2l → IsDouble chi2r →
      |chi2l - chi2r| ≤ tenthDouble →
      chooseSides size l r chi2l chi2r = (true, true)) ∧
    (size ≤ 3 → chooseSides size l r chi2l chi2r = (l, r)) ∧
    ((l = true ∧ r = false) ∨ (l = false ∧ r = true) →
      chooseSides size l r chi2l chi2r = (l, r)) ∧
    (l = true ∨ r = true →
      (chooseSides size l r chi2l chi2r).1 = true ∨
      (chooseSides size l r chi2l chi2r).2 = true) := by
  unfold chooseSides
  refine ⟨?_, ?_, ?_, ?_, ?_, ?_, ?_⟩
  · intro hs hl hr hlt
    subst hl hr
    rw [if_pos ⟨hs, rfl, rfl⟩, if_pos hlt]
  · intro hs hl hr hdl hdr hlt
    subst hl hr
    have hnot : ¬ chi2l < subDouble chi2r tenthDouble := by
      intro h
      have h1 := subDouble_tenth_le hdl
      have h2 := subDouble_tenth_le hdr
      linarith
    rw [if_pos ⟨hs, rfl, rfl⟩, if_neg hnot, if_pos hlt]
  · intro hs hl hr h1 h2
    subst hl hr
    rw [if_pos ⟨hs, rfl, rfl⟩, if_neg h1, if_neg h2]
  · intro hs hl hr hdl hdr habs
    subst hl hr
    have h1 : ¬ chi2l < subDouble chi2r tenthDouble := by
      intro h
      have hle : chi2r - tenthDouble ≤ chi2l := by
        have := (abs_le.mp habs).1
        linarith
      have := roundDouble_le_of_le hdl hle
      unfold subDouble at h
      linarith
    have h2 : ¬ chi2r < subDouble chi2l tenthDouble := by
      intro h
      have hle : chi2l - tenthDouble ≤ chi2r := by
        have := (abs_le.mp habs).2
        linarith
      have := roundDouble_le_of_le hdr hle
      unfold subDouble at h
      linarith
    rw [if_pos ⟨hs, rfl, rfl⟩, if_neg h1, if_neg h2]
  · intro hs
    have hc : ¬ (size > 3 ∧ l = true ∧ r = true) := by
      intro h
      omega
    rw [if_neg hc]
  · intro h
    have hc : ¬ (size > 3 ∧ l = true ∧ r = true) := by
      intro hc
      rcases h with ⟨_, hr⟩ | ⟨hl, _⟩
      · rw [hr] at hc
        exact Bool.noConfusion hc.2.2
      · rw [hl] at hc
        exact Bool.noConfusion hc.2.1
    rw [if_neg hc]
  · intro h
    by_cases hc : size > 3 ∧ l = true ∧ r = true
    · obtain ⟨_, hl, hr⟩ := hc
      subst hl hr
      split_ifs <;> first | exact Or.inl rfl | exact Or.inr rfl
    · rw [if_neg hc]
      exact h

/-- C14: in the loop of `addHits`, for a pool hit that passes the fit gate on
at least one side, the iteration runs the branches chosen by `sidesAt` on the
shrunk pool, the Left branch first and the Right branch from the state the
Left branch returned. With more than 3 association points and both sides
passed, only Left is chosen if `chi2l < chi2r - 0.1`, only Right if
`chi2r < chi2l - 0.1`, both if neither holds, which is the case whenever the
two chi-squares are within 0.1 of each other; with at most 3 points, or with
one side passed, every side that passed is chosen. At least one side is always
chosen. The two differences
are the double subtractions the source computes, `0.1` is the double literal,
and the chi-squares the fit reports are doubles. -/
theorem addHitsLoop_arbitration (env : Env) (sl : DTSuperLayer)
    (recur : List DTHitPairForFit → SearchState → SearchState)
    (hit : DTHitPairForFit) (rest : List DTHitPairForFit) (s : SearchState) (found : Bool)
    (hpass : (gateLeft env sl s hit).seg.isSome = true ∨
             (gateRight env sl s hit).seg.isSome = true) :
    addHitsLoop env sl recur (hit :: rest) s found =
      addHitsLoop env sl recur rest
        (branchState recur (nextPool hit rest) hit (sidesAt env sl s hit) s) true ∧
    (s.assHits.length > 3 → (gateLeft env sl s hit).seg.isSome = true →
      (gateRight env sl s hit).seg.isSome = true →
      (gateLeft env sl s hit).chi2 < subDouble (gateRight env sl s hit).chi2 tenthDouble →
      sidesAt env sl s hit = (true, false)) ∧
    (s.assHits.length > 3 → (gateLeft env sl s hit).seg.isSome = true →
      (gateRight env sl s hit).seg.isSome = true →
      IsDouble (gateLeft env sl s hit).chi2 → IsDouble (gateRight env sl s hit).chi2 →
      (gateRight env sl s hit).chi2 < subDouble (gateLeft env sl s hit).chi2 tenthDouble →
      sidesAt env sl s hit = (false, true)) ∧
    (s.assHits.length > 3 → (gateLeft env sl s hit).seg.isSome = true →
      (gateRight env sl s hit).seg.isSome = true →
      ¬ (gateLeft env sl s hit).chi2 < subDouble (gateRight env sl s hit).chi2 tenthDouble →
      ¬ (gateRight env sl s hit).chi2 < subDouble (gateLeft env sl s hit).chi2 tenthDouble →
      sidesAt env sl s hit = (true, true)) ∧
    (s.assHits.length > 3 → (gateLeft env sl s hit).seg.isSome = true →
      (gateRight env sl s hit).seg.isSome = true →
      IsDouble (gateLeft env sl s hit).chi2 → IsDouble (gateRight env sl s hit).chi2 →
      |(gateLeft env sl s hit).chi2 - (gateRight env sl s hit).chi2| ≤ tenthDouble →
      sidesAt env sl s hit = (true, true)) ∧
    (s.assHits.length ≤ 3 →
      sidesAt env sl s hit =
        ((gateLeft env sl s hit).seg.isSome, (gateRight env sl s hit).seg.isSome)) ∧
    (((gateLeft env sl s hit).seg.isSome = true ∧ (gateRight env sl s hit).seg.isSome = false) ∨
      ((gateLeft env sl s hit).seg.isSome = false ∧ (gateRight env sl s hit).seg.isSome = true) →
      sidesAt env sl s hit =
        ((gateLeft env sl s hit).seg.isSome, (gateRight env sl s hit).seg.isSome)) ∧
    ((sidesAt env sl s hit).1 = true ∨ (sidesAt env sl s hit).2 = true) ∧
    (∀ pool : List DTHitPairForFit,
      branchState recur pool hit (true, true) s
        = rightBranch recur pool hit (leftBranch recur pool hit s) ∧
      branchState recur pool hit (true, false) s = leftBranch recur pool hit s ∧
      branchState recur pool hit (false, true) s = rightBranch recur pool hit s) := by
  obtain ⟨c1, c2, c3, c3x, c4, c5, c6⟩ := chooseSides_cases s.assHits.length
    (gateLeft env sl s hit).seg.isSome (gateRight env sl s hit).seg.isSome
    (gateLeft env sl s hit).chi2 (gateRight env sl s hit).chi2
  refine ⟨?_, c1, c2, c3, c3x, c4, c5, c6 hpass, ?_⟩
  · rw [addHitsLoop_step]
    have hnot : ¬ ((gateLeft env sl s hit).seg.isSome = false ∧
        (gateRight env sl s hit).seg.isSome = false) := by
      intro h
      rcases hpass with hp | hp
      · rw [h.1] at hp
        exact Bool.noConfusion hp
      · rw [h.2] at hp
        exact Bool.noConfusion hp
    rw [if_neg hnot]
  · intro pool
    exact ⟨rfl, rfl, rfl⟩

/-- Witness of `addHitsLoop_arbitration`: a fifth hit offered to four
association points, both gates passing. With `chi2l = 1.0` and `chi2r = 1.1`
(the double nearest to 11/10) the double difference `1.1 - 0.1` is `1.0`, so
neither comparison holds and both sides are kept, although the exact
difference of the two chi-squares exceeds the literal `0.1`. With chi-squares
1 and 4 only Left is kept, with 4 and 1 only Right. -/
theorem addHitsLoop_arbitration_witness :
    ((gateLeft arbitrationEnv sl1 fourState (hitAt 7 2 6)).seg.isSome = true ∨
     (gateRight arbitrationEnv sl1 fourState (hitAt 7 2 6)).seg.isSome = true) ∧
    fourState.assHits.length > 3 ∧
    (gateLeft arbitrationEnv sl1 fourState (hitAt 7 2 6)).chi2 = 1 ∧
    (gateRight arbitrationEnv sl1 fourState (hitAt 7 2 6)).chi2
      = 2476979795053773 / 2251799813685248 ∧
    subDouble (2476979795053773 / 2251799813685248) tenthDouble = 1 ∧
    tenthDouble < 2476979795053773 / 2251799813685248 - 1 ∧
    sidesAt arbitrationEnv sl1 fourState (hitAt 7 2 6) = (true, true) ∧
    sidesAt (sideEnv 1 4) sl1 fourState (hitAt 7 2 6) = (true, false) ∧
    sidesAt (sideEnv 4 1) sl1 fourState (hitAt 7 2 6) = (false, true) :=
  ⟨by decide!, by decide, by decide!, by decide!, by decide!, by decide!,
   (addHitsLoop_arbitration arbitrationEnv sl1 (fun _ t => t) (hitAt 7 2 6) []
      fourState false (by decide!)).2.2.2.1 (by decide) (by decide!) (by decide!)
      (by decide!) (by decide!),
   (addHitsLoop_arbitration (sideEnv 1 4) sl1 (fun _ t => t) (hitAt 7 2 6) []
      fourState false (by decide!)).2.1 (by decide) (by decide!) (by decide!) (by decide!),
   (addHitsLoop_arbitration (sideEnv 4 1) sl1 (fun _ t => t) (hitAt 7 2 6) []
      fourState false (by decide!)).2.2.1 (by decide) (by decide!) (by decide!)
      (by unfold IsDouble; decide!) (by unfold IsDouble; decide!) (by decide!)⟩

/-! ## Theorems: the pool of the recursive call -/

/-- The loop of `addHits` over a suffix of the pool `whole` consults the
recursive call only on the shrunk pools of the hits of that suffix. -/
theorem addHitsLoop_congr_pools (env : Env) (sl : DTSuperLayer)
    (r1 r2 : List DTHitPairForFit → SearchState → SearchState) (whole : List DTHitPairForFit)
    (h : ∀ before hit rest, whole = before ++ hit :: rest →
      ∀ t, r1 (nextPool hit rest) t = r2 (nextPool hit rest) t) :
    ∀ (suffix before : List DTHitPairForFit) (s : SearchState) (found : Bool),
      whole = before ++ suffix →
      addHitsLoop env sl r1 suffix s found = addHitsLoop env sl r2 suffix s found := by
  intro suffix
  induction suffix with
  | nil => intro before s found _; rfl
  | cons hit rest ih =>
    intro before s found hsplit
    have e := h before hit rest hsplit
    have hb : ∀ sides t, branchState r1 (nextPool hit rest) hit sides t
        = branchState r2 (nextPool hit rest) hit sides t := by
      intro sides t
      simp only [branchState, leftBranch, rightBranch, e]
    have hnext : whole = (before ++ [hit]) ++ rest := by
      rw [hsplit]
      simp
    rw [addHitsLoop_step, addHitsLoop_step, hb, ih (before ++ [hit]) _ _ hnext,
      ih (before ++ [hit]) _ _ hnext]

/-- C15 (as stated, refuted): with the pool made of the hits of layers 2 and
3, the recursive call for the hit of layer 3 receives the empty pool, not the
pool holding the compatible hit of layer 2 that precedes it. -/
theorem addHitsLoop_pool_counterexample :
    ¬ (∀ (env : Env) (sl : DTSuperLayer)
        (recur : List DTHitPairForFit → SearchState → SearchState)
        (before : List DTHitPairForFit) (hit : DTHitPairForFit) (rest : List DTHitPairForFit)
        (s : SearchState) (found : Bool),
        ((gateLeft env sl s hit).seg.isSome = true ∨
          (gateRight env sl s hit).seg.isSome = true) →
        addHitsLoop env sl recur (hit :: rest) s found =
          addHitsLoop env sl recur rest
            (branchState recur
              (((before ++ rest).filter
                  (fun tmpHit => geometryFilter tmpHit.id hit.id)).reverse)
              hit (sidesAt env sl s hit) s) true) := by
  intro h
  have h1 := h (constEnv 1 1) sl1 logPool [hitAt 1 2 5] (hitAt 2 3 5) [] seedState false
    (by decide)
  revert h1
  decide

/-- C15 (amended): for a pool hit that survives the gate, with `rest` the hits
that follow it in the current pool, the recursive calls of that iteration
receive the pool made of exactly the hits of `rest` for which
`geometryFilter(id(tmpHit), id(hit))` is true, in the reverse of their order
in the current pool; at least one such call is made. Over a whole pool the
recursive call is consulted on such pools only. -/
theorem addHitsLoop_recursive_pool (env : Env) (sl : DTSuperLayer)
    (recur : List DTHitPairForFit → SearchState → SearchState)
    (hit : DTHitPairForFit) (rest : List DTHitPairForFit) (s : SearchState) (found : Bool)
    (hpass : (gateLeft env sl s hit).seg.isSome = true ∨
             (gateRight env sl s hit).seg.isSome = true) :
    addHitsLoop env sl recur (hit :: rest) s found =
      addHitsLoop env sl recur rest
        (branchState recur
          ((rest.filter (fun tmpHit => geometryFilter tmpHit.id hit.id)).reverse)
          hit (sidesAt env sl s hit) s) true ∧
    ((sidesAt env sl s hit).1 = true ∨ (sidesAt env sl s hit).2 = true) ∧
    (∀ x, x ∈ (rest.filter (fun tmpHit => geometryFilter tmpHit.id hit.id)).reverse ↔
      x ∈ rest ∧ geometryFilter x.id hit.id = true) ∧
    ((rest.filter (fun tmpHit => geometryFilter tmpHit.id hit.id)).reverse.Sublist rest.reverse) ∧
    (∀ (r1 r2 : List DTHitPairForFit → SearchState → SearchState)
      (whole : List DTHitPairForFit),
      (∀ before h after, whole = before ++ h :: after →
        ∀ t, r1 ((after.filter (fun tmpHit => geometryFilter tmpHit.id h.id)).reverse) t
           = r2 ((after.filter (fun tmpHit => geometryFilter tmpHit.id h.id)).reverse) t) →
      ∀ t b, addHitsLoop env sl r1 whole t b = addHitsLoop env sl r2 whole t b) := by
  refine ⟨?_, ?_, ?_, ?_, ?_⟩
  · rw [addHitsLoop_step]
    have hnot : ¬ ((gateLeft env sl s hit).seg.isSome = false ∧
        (gateRight env sl s hit).seg.isSome = false) := by
      intro h
      rcases hpass with hp | hp
      · rw [h.1] at hp
        exact Bool.noConfusion hp
      · rw [h.2] at hp
        exact Bool.noConfusion hp
    rw [if_neg hnot]
    rfl
  · exact (chooseSides_cases _ _ _ _ _).2.2.2.2.2.2 hpass
  · intro x
    rw [List.mem_reverse, List.mem_filter]
  · exact List.reverse_sublist.mpr (List.filter_sublist _)
  · intro r1 r2 whole hagree t b
    exact addHitsLoop_congr_pools env sl r1 r2 whole hagree whole [] t b rfl

/-- Witness of `addHitsLoop_recursive_pool`: the hit of layer 2 offered to the
seed pair of layers 1 and 4, followed in the pool by the hit of layer 3. -/
theorem addHitsLoop_recursive_pool_witness :
    ((gateLeft (constEnv 1 1) sl1 seedState (hitAt 1 2 5)).seg.isSome = true ∨
     (gateRight (constEnv 1 1) sl1 seedState (hitAt 1 2 5)).seg.isSome = true) ∧
    addHitsLoop (constEnv 1 1) sl1 logPool [hitAt 1 2 5, hitAt 2 3 5] seedState false =
      addHitsLoop (constEnv 1 1) sl1 logPool [hitAt 2 3 5]
        (branchState logPool
          (([hitAt 2 3 5].filter
              (fun tmpHit => geometryFilter tmpHit.id (hitAt 1 2 5).id)).reverse)
          (hitAt 1 2 5) (sidesAt (constEnv 1 1) sl1 seedState (hitAt 1 2 5)) seedState) true :=
  ⟨by decide,
   (addHitsLoop_recursive_pool (constEnv 1 1) sl1 logPool (hitAt 1 2 5) [hitAt 2 3 5]
      seedState false (by decide)).1⟩

/-! ## Theorems: the trace of the search -/

/-- The watermark never decreases across a call of `addHits`. -/
theorem addHitsAux_maxfound_le (env : Env) (sl : DTSuperLayer) (fuel : Nat)
    (hits : List DTHitPairForFit) (s : SearchState) :
    s.maxfound ≤ (addHitsAux env sl fuel hits s).maxfound := by
  have := addHitsAux_rel env sl (fun _ _ => True) (fun a b => a.maxfound ≤ b.maxfound)
    (fun _ => Nat.le_refl _) (fun _ _ _ h1 h2 => Nat.le_trans h1 h2)
    (fun _ _ _ _ _ => trivial) (fun _ _ _ _ => trivial) (fun _ _ _ _ _ _ => trivial)
    (fun s _ => by
      rw [addHitsLeaf_eq]
      split_ifs
      · exact Nat.le_refl _
      · exact Nat.le_refl _
      · exact Nat.le_refl _
      · exact Nat.le_max_left _ _
      · exact Nat.le_max_left _ _) fuel hits s trivial
  exact this

/-- The two guarded branches restore the association sequence and do not lower
the watermark, when the recursive call does so. -/
theorem branchState_frame (recur : List DTHitPairForFit → SearchState → SearchState)
    (hA : ∀ pool s, (recur pool s).assHits = s.assHits)
    (hM : ∀ pool s, s.maxfound ≤ (recur pool s).maxfound)
    (pool : List DTHitPairForFit) (hit : DTHitPairForFit) (sides : Bool × Bool)
    (s : SearchState) :
    (branchState recur pool hit sides s).assHits = s.assHits ∧
    s.maxfound ≤ (branchState recur pool hit sides s).maxfound := by
  have hl : ∀ t : SearchState, (leftBranch recur pool hit t).assHits = t.assHits ∧
      t.maxfound ≤ (leftBranch recur pool hit t).maxfound := by
    intro t
    exact ⟨branch_assHits recur hA pool t _, hM pool (t.push _)⟩
  have hr : ∀ t : SearchState, (rightBranch recur pool hit t).assHits = t.assHits ∧
      t.maxfound ≤ (rightBranch recur pool hit t).maxfound := by
    intro t
    exact ⟨branch_assHits recur hA pool t _, hM pool (t.push _)⟩
  unfold branchState
  by_cases h1 : sides.1 = true <;> by_cases h2 : sides.2 = true
  · simp only [h1, h2, if_true]
    exact ⟨(hr _).1.trans (hl s).1, Nat.le_trans (hl s).2 (hr _).2⟩
  · simp only [h1, h2, if_true, if_false]
    exact hl s
  · simp only [h1, h2, if_true, if_false]
    exact hr s
  · simp only [h1, h2, if_false]
    exact ⟨rfl, Nat.le_refl _⟩

/-- Unfolding of the loop trace at a non-empty pool. -/
theorem addHitsLoopTrace_cons (env : Env) (sl : DTSuperLayer)
    (recur : List DTHitPairForFit → SearchState → SearchState)
    (recurTrace : List DTHitPairForFit → SearchState → List Event)
    (hit : DTHitPairForFit) (rest : List DTHitPairForFit) (s : SearchState) :
    addHitsLoopTrace env sl recur recurTrace (hit :: rest) s =
      [Event.gate (s.assHits ++ [(hit, DTCellSide.Left)]),
       Event.gate (s.assHits ++ [(hit, DTCellSide.Right)])] ++
      (if (gateLeft env sl s hit).seg.isSome = false ∧ (gateRight env sl s hit).seg.isSome = false
       then addHitsLoopTrace env sl recur recurTrace rest s
       else
        (if s.assHits.length > 3 ∧ (gateLeft env sl s hit).seg.isSome = true
              ∧ (gateRight env sl s hit).seg.isSome = true
          then [Event.arbitrate s.assHits.length] else []) ++
        (if (sidesAt env sl s hit).1 = true
          then recurTrace (nextPool hit rest) (s.push (hit, DTCellSide.Left)) else []) ++
        (if (sidesAt env sl s hit).2 = true
          then recurTrace (nextPool hit rest)
            ((branchState recur (nextPool hit rest) hit ((sidesAt env sl s hit).1, false) s).push
              (hit, DTCellSide.Right))
          else []) ++
        addHitsLoopTrace env sl recur recurTrace rest
          (branchState recur (nextPool hit rest) hit (sidesAt env sl s hit) s)) :=
  rfl

/-- Unfolding of the trace of `addHits` with at least one nested call available. -/
theorem addHitsTrace_succ (env : Env) (sl : DTSuperLayer) (fuel : Nat)
    (hits : List DTHitPairForFit) (s : SearchState) :
    addHitsTrace env sl (fuel + 1) hits s =
      Event.enter hits s.assHits ::
      (if s.assHits.length + hits.length < s.maxfound then []
       else
        addHitsLoopTrace env sl (addHitsAux env sl fuel) (addHitsTrace env sl fuel) hits s ++
        (if (addHitsLoop env sl (addHitsAux env sl fuel) hits s false).2 = true then []
         else addHitsLeafTrace (addHitsLoop env sl (addHitsAux env sl fuel) hits s false).1)) :=
  rfl

/-- Membership in a guarded list of steps. -/
theorem mem_ite_nil {α : Type} (c : Prop) [Decidable c] (l : List α) (e : α)
    (h : e ∈ if c then l else []) : c ∧ e ∈ l := by
  by_cases hc : c
  · rw [if_pos hc] at h
    exact ⟨hc, h⟩
  · rw [if_neg hc] at h
    exact absurd h (List.not_mem_nil _)

/-- Induction principle for the steps of the loop of `addHits`. -/
theorem addHitsLoopTrace_forall (env : Env) (sl : DTSuperLayer)
    (Inv : List DTHitPairForFit → SearchState → Prop) (P : Event → Prop)
    (hstep : ∀ hit rest s side, Inv (hit :: rest) s → Inv (nextPool hit rest) (s.push (hit, side)))
    (htail : ∀ hit rest s, Inv (hit :: rest) s → Inv rest s)
    (hinv : ∀ pool s t, Inv pool s → t.assHits = s.assHits → s.maxfound ≤ t.maxfound →
      Inv pool t)
    (hgate : ∀ hit rest s side, Inv (hit :: rest) s →
      P (Event.gate (s.assHits ++ [(hit, side)])))
    (harb : ∀ hit rest s, Inv (hit :: rest) s → s.assHits.length > 3 →
      P (Event.arbitrate s.assHits.length))
    (recur : List DTHitPairForFit → SearchState → SearchState)
    (hA : ∀ pool s, (recur pool s).assHits = s.assHits)
    (hM : ∀ pool s, s.maxfound ≤ (recur pool s).maxfound)
    (recurTrace : List DTHitPairForFit → SearchState → List Event) (k : Nat)
    (hrec : ∀ pool s, pool.length < k → Inv pool s → ∀ e ∈ recurTrace pool s, P e) :
    ∀ (hits : List DTHitPairForFit) (s : SearchState), hits.length ≤ k → Inv hits s →
      ∀ e ∈ addHitsLoopTrace env sl recur recurTrace hits s, P e := by
  intro hits
  induction hits with
  | nil =>
    intro s _ _ e he
    exact absurd he (List.not_mem_nil _)
  | cons hit rest ih =>
    intro s hk hI e he
    have hlen : (nextPool hit rest).length < k := by
      have := nextPool_length_le hit rest
      simp only [List.length_cons] at hk
      omega
    have hrest : rest.length ≤ k := by
      simp only [List.length_cons] at hk
      omega
    have hframe := branchState_frame recur hA hM (nextPool hit rest) hit
    rw [addHitsLoopTrace_cons] at he
    rcases List.mem_append.mp he with hg | hbody
    · rcases List.mem_cons.mp hg with rfl | hg2
      · exact hgate hit rest s _ hI
      · rw [List.mem_singleton] at hg2
        subst hg2
        exact hgate hit rest s _ hI
    · by_cases hfail : (gateLeft env sl s hit).seg.isSome = false ∧
          (gateRight env sl s hit).seg.isSome = false
      · rw [if_pos hfail] at hbody
        exact ih s hrest (htail hit rest s hI) e hbody
      · rw [if_neg hfail] at hbody
        rcases List.mem_append.mp hbody with h123 | h4
        · rcases List.mem_append.mp h123 with h12 | h3
          · rcases List.mem_append.mp h12 with h1 | h2
            · obtain ⟨hc, h1⟩ := mem_ite_nil _ _ _ h1
              rw [List.mem_singleton] at h1
              subst h1
              exact harb hit rest s hI hc.1
            · obtain ⟨_, h2⟩ := mem_ite_nil _ _ _ h2
              exact hrec _ _ hlen (hstep hit rest s _ hI) e h2
          · obtain ⟨_, h3⟩ := mem_ite_nil _ _ _ h3
            have hf := hframe ((sidesAt env sl s hit).1, false) s
            exact hrec _ _ hlen (hstep hit rest _ _ (hinv _ _ _ hI hf.1 hf.2)) e h3
        · have hf := hframe (sidesAt env sl s hit) s
          exact ih _ hrest (htail hit rest _ (hinv _ _ _ hI hf.1 hf.2)) e h4

/-- The loop of `addHits` does not lower the watermark. -/
theorem addHitsLoop_maxfound_le (env : Env) (sl : DTSuperLayer) (fuel : Nat)
    (hits : List DTHitPairForFit) (s : SearchState) (found : Bool) :
    s.maxfound ≤ (addHitsLoop env sl (addHitsAux env sl fuel) hits s found).1.maxfound := by
  have := addHitsLoop_rel env sl (fun _ _ => True) (fun a b => a.maxfound ≤ b.maxfound)
    (fun _ => Nat.le_refl _) (fun _ _ _ h1 h2 => Nat.le_trans h1 h2)
    (fun _ _ _ _ _ => trivial) (fun _ _ _ _ => trivial) (fun _ _ _ _ _ _ => trivial)
    (addHitsAux env sl fuel) (addHitsAux_assHits env sl fuel)
    (fun pool t _ => addHitsAux_maxfound_le env sl fuel pool t) hits s found trivial
  exact this

/-- Induction principle for the steps of `addHits`: a property of steps that
holds for the step of entering, for every gate call of the loop, for every
arbitration and for the gate call of the end, in configurations satisfying
`Inv`, holds for every step of a call entered in such a configuration with a
recursion budget above the pool length. -/
theorem addHitsTrace_forall (env : Env) (sl : DTSuperLayer)
    (Inv : List DTHitPairForFit → SearchState → Prop) (P : Event → Prop)
    (hstep : ∀ hit rest s side, Inv (hit :: rest) s → Inv (nextPool hit rest) (s.push (hit, side)))
    (htail : ∀ hit rest s, Inv (hit :: rest) s → Inv rest s)
    (hinv : ∀ pool s t, Inv pool s → t.assHits = s.assHits → s.maxfound ≤ t.maxfound →
      Inv pool t)
    (henter : ∀ pool s, Inv pool s → P (Event.enter pool s.assHits))
    (hgate : ∀ hit rest s side, Inv (hit :: rest) s →
      P (Event.gate (s.assHits ++ [(hit, side)])))
    (harb : ∀ hit rest s, Inv (hit :: rest) s → s.assHits.length > 3 →
      P (Event.arbitrate s.assHits.length))
    (hleaf : ∀ s, Inv [] s → ¬ s.assHits.length < s.maxfound → P (Event.gate s.assHits)) :
    ∀ (fuel : Nat) (hits : List DTHitPairForFit) (s : SearchState),
      hits.length < fuel → Inv hits s → ∀ e ∈ addHitsTrace env sl fuel hits s, P e := by
  intro fuel
  induction fuel with
  | zero => intro hits s h; exact absurd h (Nat.not_lt_zero _)
  | succ fuel ih =>
    intro hits s hlt hI e he
    have hnil : ∀ (l : List DTHitPairForFit) (t : SearchState), Inv l t → Inv [] t := by
      intro l
      induction l with
      | nil => intro t h; exact h
      | cons a l ihl => intro t h; exact ihl t (htail a l t h)
    rw [addHitsTrace_succ] at he
    rcases List.mem_cons.mp he with rfl | he2
    · exact henter hits s hI
    · by_cases hguard : s.assHits.length + hits.length < s.maxfound
      · rw [if_pos hguard] at he2
        exact absurd he2 (List.not_mem_nil _)
      · rw [if_neg hguard] at he2
        rcases List.mem_append.mp he2 with hl | hleafm
        · exact addHitsLoopTrace_forall env sl Inv P hstep htail hinv hgate harb
            (addHitsAux env sl fuel) (addHitsAux_assHits env sl fuel)
            (addHitsAux_maxfound_le env sl fuel) (addHitsTrace env sl fuel) fuel
            (fun pool t hp hIp => ih pool t hp hIp) hits s (by omega) hI e hl
        · by_cases hfound : (addHitsLoop env sl (addHitsAux env sl fuel) hits s false).2 = true
          · rw [if_pos hfound] at hleafm
            exact absurd hleafm (List.not_mem_nil _)
          · rw [if_neg hfound] at hleafm
            unfold addHitsLeafTrace at hleafm
            by_cases hsmall : (addHitsLoop env sl (addHitsAux env sl fuel) hits s false).1.assHits.length
                < (addHitsLoop env sl (addHitsAux env sl fuel) hits s false).1.maxfound
            · rw [if_pos hsmall] at hleafm
              exact absurd hleafm (List.not_mem_nil _)
            · rw [if_neg hsmall, List.mem_singleton] at hleafm
              subst hleafm
              have hIl := hinv _ _ _ hI
                (addHitsLoop_assHits env sl _ (addHitsAux_assHits env sl fuel) hits s false)
                (addHitsLoop_maxfound_le env sl fuel hits s false)
              exact hleaf _ (hnil _ _ hIl) hsmall

/-! ## Theorems: termination and recursion depth -/

/-- The pool of a seed pair is shorter than the hit list it is taken from. -/
theorem seedPool_length_lt (before after : List DTHitPairForFit)
    (firstHit lastHit : DTHitPairForFit) :
    (seedPool firstHit lastHit after).length < (before ++ firstHit :: after).length := by
  have h1 : (seedPool firstHit lastHit after).length ≤ after.length := by
    unfold seedPool
    exact Nat.le_trans (List.length_filter_le _ _) (List.takeWhile_sublist _).length_le
  simp only [List.length_append, List.length_cons]
  omega

/-- C17: `addHits` terminates on every input. The pool passed to a recursive
call is strictly shorter than the pool of the calling invocation; with a
recursion budget above the length of the pool no nested call is ever needed
beyond the budget, every pool entered in recursion is at most as long as the
initial one, and the result is that of `addHits`, a total function; the pool
of a top-level call is shorter than the hit list of the super-layer, which is
at most `MaxAllowedHits` long when seeds are built. -/
theorem addHits_terminates (env : Env) (sl : DTSuperLayer) :
    (∀ (hit : DTHitPairForFit) (rest : List DTHitPairForFit),
      (nextPool hit rest).length < (hit :: rest).length) ∧
    (∀ (hits : List DTHitPairForFit) (s : SearchState) (fuel : Nat), hits.length < fuel →
      Event.exhausted ∉ addHitsTrace env sl fuel hits s ∧
      (∀ pool a, Event.enter pool a ∈ addHitsTrace env sl fuel hits s →
        pool.length ≤ hits.length) ∧
      addHitsAux env sl fuel hits s = addHits env sl hits s) ∧
    (∀ (before after : List DTHitPairForFit) (firstHit lastHit : DTHitPairForFit),
      (seedPool firstHit lastHit after).length < (before ++ firstHit :: after).length ∧
      ((before ++ firstHit :: after).length ≤ env.theMaxAllowedHits →
        (seedPool firstHit lastHit after).length < env.theMaxAllowedHits)) := by
  refine ⟨?_, ?_, ?_⟩
  · intro hit rest
    have := nextPool_length_le hit rest
    simp only [List.length_cons]
    omega
  · intro hits s fuel hlt
    refine ⟨?_, ?_, ?_⟩
    · intro hmem
      have := addHitsTrace_forall env sl (fun _ _ => True) (fun e => e ≠ Event.exhausted)
        (fun _ _ _ _ _ => trivial) (fun _ _ _ _ => trivial) (fun _ _ _ _ _ _ => trivial)
        (fun _ _ _ h => Event.noConfusion h) (fun _ _ _ _ _ h => Event.noConfusion h)
        (fun _ _ _ _ _ h => Event.noConfusion h) (fun _ _ _ h => Event.noConfusion h)
        fuel hits s hlt trivial Event.exhausted hmem
      exact this rfl
    · intro pool a hmem
      have := addHitsTrace_forall env sl (fun p _ => p.length ≤ hits.length)
        (fun e => ∀ p b, e = Event.enter p b → p.length ≤ hits.length)
        (fun hit rest _ _ h => by
          have := nextPool_length_le hit rest
          simp only [List.length_cons] at h
          omega)
        (fun _ _ _ h => by
          simp only [List.length_cons] at h
          omega)
        (fun _ _ _ h _ _ => h)
        (fun p t h q b hq => by
          injection hq with hq1 _
          rw [← hq1]
          exact h)
        (fun _ _ _ _ _ _ _ h => Event.noConfusion h)
        (fun _ _ _ _ _ _ _ h => Event.noConfusion h)
        (fun _ _ _ _ _ h => Event.noConfusion h)
        fuel hits s hlt (Nat.le_refl _) (Event.enter pool a) hmem
      exact this pool a rfl
    · exact addHitsAux_fuel env sl fuel (hits.length + 1) hits s hlt (Nat.lt_succ_self _)
  · intro before after firstHit lastHit
    have h := seedPool_length_lt before after firstHit lastHit
    exact ⟨h, fun hle => Nat.lt_of_lt_of_le h hle⟩

/-- Witness of `addHits_terminates`: a pool of two hits with a budget of three calls. -/
theorem addHits_terminates_witness :
    [hitAt 1 2 5, hitAt 2 3 5].length < 3 ∧
    Event.exhausted ∉ addHitsTrace (constEnv 1 1) sl1 3 [hitAt 1 2 5, hitAt 2 3 5] seedState ∧
    addHitsAux (constEnv 1 1) sl1 3 [hitAt 1 2 5, hitAt 2 3 5] seedState
      = addHits (constEnv 1 1) sl1 [hitAt 1 2 5, hitAt 2 3 5] seedState :=
  ⟨by decide,
   ((addHits_terminates (constEnv 1 1) sl1).2.1 [hitAt 1 2 5, hitAt 2 3 5] seedState 3
      (by decide)).1,
   ((addHits_terminates (constEnv 1 1) sl1).2.1 [hitAt 1 2 5, hitAt 2 3 5] seedState 3
      (by decide)).2.2⟩

/-! ## Theorems: the gate is called with at least 3 points -/

/-- C20: when `addHits` is entered with at least 2 association points and a
watermark of at least 3, every call of `fitWithT0` it makes, directly or in
recursion, passes at least 3 association points; so whenever the gate goes
past the 3-point exit the sequence has at least 4 points, and its `size_t`
length minus 3 is the exact difference, a positive integer. -/
theorem addHits_gate_calls (env : Env) (sl : DTSuperLayer) (hits : List DTHitPairForFit)
    (s : SearchState) (h2 : 2 ≤ s.assHits.length) (h3 : 3 ≤ s.maxfound) :
    ∀ a, Event.gate a ∈ addHitsEvents env sl hits s →
      3 ≤ a.length ∧
      (a.length ≠ 3 → a.length < 2 ^ 64 →
        4 ≤ a.length ∧ sizeMinus3 a.length = a.length - 3 ∧ 0 < sizeMinus3 a.length) := by
  intro a hmem
  have key : 3 ≤ a.length := by
    have := addHitsTrace_forall env sl
      (fun _ t => 2 ≤ t.assHits.length ∧ 3 ≤ t.maxfound)
      (fun e => ∀ b, e = Event.gate b → 3 ≤ b.length)
      (fun hit rest t side h => by
        refine ⟨?_, h.2⟩
        show 2 ≤ (t.assHits ++ [(hit, side)]).length
        rw [List.length_append]
        omega)
      (fun _ _ _ h => h)
      (fun _ _ t h ha hm => by
        show 2 ≤ t.assHits.length ∧ 3 ≤ t.maxfound
        rw [ha]
        exact ⟨h.1, Nat.le_trans h.2 hm⟩)
      (fun _ _ _ _ h => Event.noConfusion h)
      (fun hit rest t side h b hb => by
        injection hb with hb1
        rw [← hb1, List.length_append]
        have := h.1
        simp only [List.length_singleton]
        omega)
      (fun _ _ _ _ _ _ h => Event.noConfusion h)
      (fun t h hsmall b hb => by
        injection hb with hb1
        rw [← hb1]
        have := h.2
        omega)
      (hits.length + 1) hits s (Nat.lt_succ_self _) ⟨h2, h3⟩ (Event.gate a) hmem
    exact this a rfl
  refine ⟨key, ?_⟩
  intro hne h64
  have h4 : 4 ≤ a.length := by omega
  have he := sizeMinus3_eq a.length key h64
  exact ⟨h4, he, by omega⟩

/-- Witness of `addHits_gate_calls`: the seed pair of layers 1 and 4 with the
hit of layer 2 in the pool; the gate is called with the three points. -/
theorem addHits_gate_calls_witness :
    2 ≤ seedState.assHits.length ∧ 3 ≤ seedState.maxfound ∧
    Event.gate (seedState.assHits ++ [(hitAt 1 2 5, DTCellSide.Left)])
      ∈ addHitsEvents (constEnv 1 1) sl1 [hitAt 1 2 5] seedState ∧
    3 ≤ (seedState.assHits ++ [(hitAt 1 2 5, DTCellSide.Left)]).length :=
  ⟨by decide, by decide, by decide,
   (addHits_gate_calls (constEnv 1 1) sl1 [hitAt 1 2 5] seedState (by decide) (by decide)
      (seedState.assHits ++ [(hitAt 1 2 5, DTCellSide.Left)]) (by decide)).1⟩

/-! ## Theorems: candidates of a single super-layer -/

/-- Two compatible hits of one super-layer lie in different layers, at most 3 apart. -/
theorem compatible_layers (a b : DTHitPairForFit) (hsl : a.id.superLayer = b.id.superLayer)
    (h : compatible a b) :
    a.id.layer ≠ b.id.layer ∧ -3 ≤ a.id.layer - b.id.layer ∧ a.id.layer - b.id.layer ≤ 3 := by
  have hg := h.1
  unfold geometryFilter at hg
  simp only [ne_eq, hsl, not_true_eq_false, if_false] at hg
  have hd := Int.natAbs_eq (a.id.layer - b.id.layer)
  generalize (a.id.layer - b.id.layer).natAbs = d at *
  by_cases h0 : d = 0
  · rw [if_pos h0] at hg
    exact Bool.noConfusion hg
  · rw [if_neg h0] at hg
    by_cases h3 : d > 3
    · rw [if_pos h3] at hg
      exact Bool.noConfusion hg
    · refine ⟨?_, ?_, ?_⟩ <;> omega

/-- At most four integers are pairwise distinct and pairwise at most 3 apart. -/
theorem length_le_four_of_close (L : List Int)
    (h : L.Pairwise (fun x y => x ≠ y ∧ -3 ≤ x - y ∧ x - y ≤ 3)) : L.length ≤ 4 := by
  match L, h with
  | [], _ => simp
  | [_], _ => simp
  | [_, _], _ => simp
  | [_, _, _], _ => simp
  | [_, _, _, _], _ => simp
  | a :: b :: c :: d :: e :: rest, h =>
    exfalso
    simp only [List.pairwise_cons, List.mem_cons, forall_eq_or_imp] at h
    obtain ⟨⟨hab, hac, had, hae, _⟩, ⟨hbc, hbd, hbe, _⟩, ⟨hcd, hce, _⟩, ⟨hde, _⟩, _⟩ := h
    omega

/-- Association points with pairwise compatible hits taken from a well-formed
hit list of one super-layer: they are at most 4, with distinct hits in
pairwise distinct layers. -/
theorem compatible_points_bound (hits : List DTHitPairForFit) (hsl : OneSuperLayer hits)
    (hwf : WellFormedHits hits) (l : List AssPoint) (hc : PairwiseCompatible l)
    (hmem : ∀ a ∈ l, a.1 ∈ hits) :
    l.length ≤ 4 ∧
    l.Pairwise (fun p q => p.1.ptr ≠ q.1.ptr ∧ p.1.id.layer ≠ q.1.id.layer) := by
  have hlayers : l.Pairwise (fun p q => p.1.id.layer ≠ q.1.id.layer ∧
      -3 ≤ p.1.id.layer - q.1.id.layer ∧ p.1.id.layer - q.1.id.layer ≤ 3) := by
    apply List.Pairwise.imp_of_mem _ hc
    intro p q hp hq hpq
    exact compatible_layers p.1 q.1 (hsl p.1 (hmem p hp) q.1 (hmem q hq)) hpq
  constructor
  · have hmap : (l.map (fun p => p.1.id.layer)).Pairwise
        (fun x y => x ≠ y ∧ -3 ≤ x - y ∧ x - y ≤ 3) :=
      List.pairwise_map.mpr hlayers
    have := length_le_four_of_close _ hmap
    rwa [List.length_map] at this
  · apply List.Pairwise.imp_of_mem _ hlayers
    intro p q hp hq hpq
    refine ⟨?_, hpq.1⟩
    intro hptr
    have hid := hwf p.1 (hmem p hp) q.1 (hmem q hq) hptr
    exact hpq.1 (by rw [hid])

/-- Range insertion of points with pairwise distinct hits keeps them all. -/
theorem insertRange_eq_append (l : List AssPoint) :
    ∀ s : List AssPoint, (s ++ l).Pairwise (fun p q => p.1.ptr ≠ q.1.ptr) →
      AssPointCont.insertRange s l = s ++ l := by
  induction l with
  | nil => intro s _; simp [AssPointCont.insertRange]
  | cons p l ih =>
    intro s hp
    have hfold : AssPointCont.insertRange s (p :: l)
        = AssPointCont.insertRange (AssPointCont.insert s p) l := rfl
    have hnone : s.any (fun q => q.1.ptr == p.1.ptr) = false := by
      rw [List.any_eq_false]
      intro q hq
      have := (List.pairwise_append.mp hp).2.2 q hq p (List.mem_cons_self _ _)
      simpa using this
    have hins : AssPointCont.insert s p = s ++ [p] := by
      unfold AssPointCont.insert
      rw [hnone]
      rfl
    rw [hfold, hins, ih (s ++ [p]) (by simpa using hp)]
    simp

/-- Invariant principle for the seed loops of `buildSegments` with the
positions of the seed hits: `firstHit` stands in the hit list, `lastHit`
behind it. -/
theorem collectCandidates_inv_pos (env : Env) (sl : DTSuperLayer)
    (hits : List DTHitPairForFit) (P : List DTSegmentCand → Prop) (h0 : P [])
    (hadd : ∀ (before after : List DTHitPairForFit) (firstHit lastHit : DTHitPairForFit)
      (firstLR lastLR : DTCellSide) (res : List DTSegmentCand),
      hits = before ++ firstHit :: after → lastHit ∈ after →
      geometryFilter firstHit.id lastHit.id = true → P res →
      P (addHits env sl (seedPool firstHit lastHit after)
          { assHits := [(firstHit, firstLR), (lastHit, lastLR)], maxfound := 3,
            result := res }).result)
    (maxfound : Nat) :
    P (collectCandidates env maxfound sl hits).result := by
  have hpair : ∀ DAlphaMax before firstHit after (st : BuildState) lastHit,
      hits = before ++ firstHit :: after → lastHit ∈ after →
      P st.result → P (seedPair env sl DAlphaMax firstHit after st lastHit).result := by
    intro DAlphaMax before firstHit after st lastHit hsplit hin hst
    unfold seedPair
    by_cases hg : geometryFilter firstHit.id lastHit.id = false
    · rw [if_pos hg]
      exact hst
    · rw [if_neg hg]
      have hg2 : geometryFilter firstHit.id lastHit.id = true := by
        cases h : geometryFilter firstHit.id lastHit.id
        · exact absurd h hg
        · rfl
      apply foldl_preserves (fun st : BuildState => P st.result) _ _ _ _ hst
      intro b firstLR hb
      apply foldl_preserves (fun st : BuildState => P st.result) _ _ _ _ hb
      intro b2 lastLR hb2
      unfold seedSides
      split_ifs
      · exact hb2
      · exact hadd before after firstHit lastHit firstLR lastLR b2.result hsplit hin hg2 hb2
  have hlast : ∀ DAlphaMax before firstHit after (l : List DTHitPairForFit) (st : BuildState),
      hits = before ++ firstHit :: after → (∀ x ∈ l, x ∈ after) → P st.result →
      P (l.foldl (seedPair env sl DAlphaMax firstHit after) st).result := by
    intro DAlphaMax before firstHit after l
    induction l with
    | nil => intro st _ _ h; exact h
    | cons x l ih =>
      intro st hsplit hl h
      simp only [List.foldl_cons]
      exact ih _ hsplit (fun y hy => hl y (List.mem_cons_of_mem _ hy))
        (hpair _ before firstHit after st x hsplit (hl x (List.mem_cons_self _ _)) h)
  have hfirst : ∀ DAlphaMax (rest before : List DTHitPairForFit) (st : BuildState),
      hits = before ++ rest → P st.result →
      P (firstHitLoop env sl DAlphaMax hits rest st).result := by
    intro DAlphaMax rest
    induction rest with
    | nil => intro before st _ h; exact h
    | cons firstHit after ih =>
      intro before st hsplit h
      unfold firstHitLoop
      apply ih (before ++ [firstHit])
      · rw [hsplit]
        simp
      · unfold lastHitLoop
        apply hlast _ before firstHit after _ st hsplit _ h
        intro x hx
        rw [hsplit] at hx
        exact lastHit_mem_after before after firstHit x hx
  exact hfirst _ hits [] _ rfl h0

/-- Pushing a pool hit keeps the search within the hit list. -/
theorem searchWithin_step (hits : List DTHitPairForFit) (hit : DTHitPairForFit)
    (rest : List DTHitPairForFit) (s : SearchState) (side : DTCellSide)
    (h : SearchWithin hits (hit :: rest) s) :
    SearchWithin hits (nextPool hit rest) (s.push (hit, side)) := by
  obtain ⟨hc, ha, hp, hm⟩ := h
  refine ⟨seedCompatible_step hit rest s side hc, ?_, ?_, hm⟩
  · intro a hmem
    have hmem2 : a ∈ s.assHits ++ [(hit, side)] := hmem
    rcases List.mem_append.mp hmem2 with h1 | h1
    · exact ha a h1
    · rw [List.mem_singleton] at h1
      rw [h1]
      exact hp hit (List.mem_cons_self _ _)
  · intro x hx
    unfold nextPool at hx
    rw [List.mem_reverse, List.mem_filter] at hx
    exact hp x (List.mem_cons_of_mem _ hx.1)

/-- Dropping the first pool hit keeps the search within the hit list. -/
theorem searchWithin_tail (hits : List DTHitPairForFit) (hit : DTHitPairForFit)
    (rest : List DTHitPairForFit) (s : SearchState) (h : SearchWithin hits (hit :: rest) s) :
    SearchWithin hits rest s :=
  ⟨⟨h.1.1, fun x hx a ha => h.1.2 x (List.mem_cons_of_mem _ hx) a ha⟩, h.2.1,
   fun x hx => h.2.2.1 x (List.mem_cons_of_mem _ hx), h.2.2.2⟩

/-- A state with the same association sequence and a watermark not lower stays
within the hit list. -/
theorem searchWithin_frame (hits pool : List DTHitPairForFit) (s t : SearchState)
    (h : SearchWithin hits pool s) (ha : t.assHits = s.assHits) (hm : s.maxfound ≤ t.maxfound) :
    SearchWithin hits pool t := by
  unfold SearchWithin SeedCompatible at *
  rw [ha]
  exact ⟨h.1, h.2.1, h.2.2.1, Nat.le_trans h.2.2.2 hm⟩

/-- The seed configuration of `buildSegments` is within the hit list. -/
theorem searchWithin_seed (hits before after : List DTHitPairForFit)
    (firstHit lastHit : DTHitPairForFit) (firstLR lastLR : DTCellSide)
    (res : List DTSegmentCand) (hsplit : hits = before ++ firstHit :: after)
    (hin : lastHit ∈ after) (hg : geometryFilter firstHit.id lastHit.id = true) :
    SearchWithin hits (seedPool firstHit lastHit after)
      { assHits := [(firstHit, firstLR), (lastHit, lastLR)], maxfound := 3, result := res } := by
  have hafter : ∀ x ∈ after, x ∈ hits := by
    intro x hx
    rw [hsplit]
    exact List.mem_append_right _ (List.mem_cons_of_mem _ hx)
  have hfirst : firstHit ∈ hits := by
    rw [hsplit]
    exact List.mem_append_right _ (List.mem_cons_self _ _)
  refine ⟨seedCompatible_seed firstHit lastHit after firstLR lastLR 3 res hg, ?_, ?_,
    Nat.le_refl _⟩
  · intro a ha
    have ha2 : a = (firstHit, firstLR) ∨ a = (lastHit, lastLR) := by
      simpa using ha
    rcases ha2 with rfl | rfl
    · exact hfirst
    · exact hafter _ hin
  · intro x hx
    unfold seedPool at hx
    rw [List.mem_filter] at hx
    exact hafter x ((List.takeWhile_sublist _).subset hx.1)

/-- Within a well-formed hit list of one super-layer, an association sequence
offered one more pool hit holds at most 3 points. -/
theorem searchWithin_size (hits : List DTHitPairForFit) (hsl : OneSuperLayer hits)
    (hwf : WellFormedHits hits) (hit : DTHitPairForFit) (rest : List DTHitPairForFit)
    (s : SearchState) (h : SearchWithin hits (hit :: rest) s) : s.assHits.length ≤ 3 := by
  have hnext := searchWithin_step hits hit rest s DTCellSide.Left h
  have hb := (compatible_points_bound hits hsl hwf _ hnext.1.1 hnext.2.1).1
  have hlen : (s.push (hit, DTCellSide.Left)).assHits.length = s.assHits.length + 1 := by
    show (s.assHits ++ [(hit, DTCellSide.Left)]).length = _
    simp
  omega

/-- The leaf step within a well-formed hit list of one super-layer stores only
candidates of 3 or 4 points in distinct layers. -/
theorem addHitsLeaf_threeOrFour (env : Env) (sl : DTSuperLayer) (hits : List DTHitPairForFit)
    (hsl : OneSuperLayer hits) (hwf : WellFormedHits hits) (s : SearchState)
    (h : SearchWithin hits [] s) (hres : ∀ c ∈ s.result, ThreeOrFourLayers c) :
    ∀ c ∈ (addHitsLeaf env sl s).result, ThreeOrFourLayers c := by
  rw [addHitsLeaf_eq]
  by_cases h1 : s.assHits.length < s.maxfound
  · rw [if_pos h1]
    exact hres
  · rw [if_neg h1]
    split_ifs with h2 h3 hc
    · exact hres
    · exact hres
    · show ∀ c ∈ s.result ++ [trialCand env sl s.assHits], ThreeOrFourLayers c
      intro c hcm
      rcases List.mem_append.mp hcm with hc1 | hc1
      · exact hres c hc1
      · rw [List.mem_singleton] at hc1
        subst hc1
        obtain ⟨hle, hpw⟩ := compatible_points_bound hits hsl hwf s.assHits h.1.1 h.2.1
        have hptr : (([] : List AssPoint) ++ s.assHits).Pairwise
            (fun p q => p.1.ptr ≠ q.1.ptr) := by
          rw [List.nil_append]
          exact List.Pairwise.imp (fun hpq => hpq.1) hpw
        have hset : (trialCand env sl s.assHits).theHits = s.assHits := by
          show AssPointCont.insertRange [] s.assHits = s.assHits
          rw [insertRange_eq_append _ _ hptr, List.nil_append]
        have h3m := h.2.2.2
        refine ⟨?_, ?_⟩
        · unfold DTSegmentCand.nHits
          rw [hset]
          omega
        · rw [hset]
          exact hpw
    · exact hres

/-- The leaf step does not lower the watermark. -/
theorem addHitsLeaf_maxfound_le (env : Env) (sl : DTSuperLayer) (s : SearchState) :
    s.maxfound ≤ (addHitsLeaf env sl s).maxfound := by
  rw [addHitsLeaf_eq]
  split_ifs
  · exact Nat.le_refl _
  · exact Nat.le_refl _
  · exact Nat.le_refl _
  · exact Nat.le_max_left _ _
  · exact Nat.le_max_left _ _

/-- A call of `addHits` within a well-formed hit list of one super-layer
stores only candidates of 3 or 4 points in distinct layers. -/
theorem addHitsAux_threeOrFour (env : Env) (sl : DTSuperLayer) (hits : List DTHitPairForFit)
    (hsl : OneSuperLayer hits) (hwf : WellFormedHits hits) (fuel : Nat)
    (pool : List DTHitPairForFit) (s : SearchState) (h : SearchWithin hits pool s)
    (hres : ∀ c ∈ s.result, ThreeOrFourLayers c) :
    ∀ c ∈ (addHitsAux env sl fuel pool s).result, ThreeOrFourLayers c := by
  have := addHitsAux_rel env sl (SearchWithin hits)
    (fun a b => a.maxfound ≤ b.maxfound ∧
      ((∀ c ∈ a.result, ThreeOrFourLayers c) → ∀ c ∈ b.result, ThreeOrFourLayers c))
    (fun _ => ⟨Nat.le_refl _, fun h => h⟩)
    (fun _ _ _ h1 h2 => ⟨Nat.le_trans h1.1 h2.1, fun h => h2.2 (h1.2 h)⟩)
    (searchWithin_step hits) (searchWithin_tail hits)
    (fun pool s t hI hrel ha => searchWithin_frame hits pool s t hI ha hrel.1)
    (fun s hI => ⟨addHitsLeaf_maxfound_le env sl s,
      fun hr => addHitsLeaf_threeOrFour env sl hits hsl hwf s hI hr⟩)
    fuel pool s h
  exact this.2 hres

/-- C19: for a hit list whose hits all lie in one super-layer (a shared
pointer denoting one hit), every watermark on entry and every behaviour of the
fit and the geometry, every candidate `buildSegments` collects before cleaning
is built from exactly 3 or exactly 4 association points with distinct hits in
pairwise distinct layers; and in no top-level call of `addHits` that
`buildSegments` makes (a seed pair passing the filter, with its pool, its
sides and the list collected so far) is the left/right chi-square arbitration
ever run. -/
theorem buildSegments_one_superlayer (env : Env) (maxfound : Nat) (sl : DTSuperLayer)
    (hits : List DTHitPairForFit) (hsl : OneSuperLayer hits) (hwf : WellFormedHits hits) :
    (∀ c ∈ (collectCandidates env maxfound sl hits).result,
      (c.nHits = 3 ∨ c.nHits = 4) ∧
      c.theHits.Pairwise (fun p q => p.1.ptr ≠ q.1.ptr ∧ p.1.id.layer ≠ q.1.id.layer)) ∧
    (∀ (before after : List DTHitPairForFit) (firstHit lastHit : DTHitPairForFit)
      (firstLR lastLR : DTCellSide) (res : List DTSegmentCand),
      hits = before ++ firstHit :: after → lastHit ∈ after →
      geometryFilter firstHit.id lastHit.id = true →
      ∀ n, Event.arbitrate n ∉
        addHitsEvents env sl (seedPool firstHit lastHit after)
          { assHits := [(firstHit, firstLR), (lastHit, lastLR)], maxfound := 3,
            result := res }) := by
  constructor
  · have key : ∀ c ∈ (collectCandidates env maxfound sl hits).result, ThreeOrFourLayers c := by
      apply collectCandidates_inv_pos env sl hits (fun res => ∀ c ∈ res, ThreeOrFourLayers c)
      · intro c hc
        exact absurd hc (List.not_mem_nil _)
      · intro before after firstHit lastHit firstLR lastLR res hsplit hin hg hres
        exact addHitsAux_threeOrFour env sl hits hsl hwf _ _ _
          (searchWithin_seed hits before after firstHit lastHit firstLR lastLR res hsplit hin hg)
          hres
    exact key
  · intro before after firstHit lastHit firstLR lastLR res hsplit hin hg n hmem
    have := addHitsTrace_forall env sl (SearchWithin hits) (fun e => ∀ k, e ≠ Event.arbitrate k)
      (searchWithin_step hits) (searchWithin_tail hits) (searchWithin_frame hits)
      (fun _ _ _ _ h => Event.noConfusion h)
      (fun _ _ _ _ _ _ h => Event.noConfusion h)
      (fun hit rest t hI hgt => by
        have := searchWithin_size hits hsl hwf hit rest t hI
        omega)
      (fun _ _ _ _ h => Event.noConfusion h)
      ((seedPool firstHit lastHit after).length + 1) _ _ (Nat.lt_succ_self _)
      (searchWithin_seed hits before after firstHit lastHit firstLR lastLR res hsplit hin hg)
      (Event.arbitrate n) hmem
    exact this n rfl

/-- Witness of `buildSegments_one_superlayer`: three hits in layers 1, 2, 3 of
super-layer 1 and the candidate collected from them. -/
theorem buildSegments_one_superlayer_witness :
    OneSuperLayer threeHits ∧ WellFormedHits threeHits ∧
    threeHitsCand ∈ (collectCandidates (constEnv 1 1) 7 sl1 threeHits).result ∧
    ((threeHitsCand.nHits = 3 ∨ threeHitsCand.nHits = 4) ∧
      threeHitsCand.theHits.Pairwise
        (fun p q => p.1.ptr ≠ q.1.ptr ∧ p.1.id.layer ≠ q.1.id.layer)) :=
  ⟨by unfold OneSuperLayer; decide, by unfold WellFormedHits; decide, by decide,
   (buildSegments_one_superlayer (constEnv 1 1) 7 sl1 threeHits
      (by unfold OneSuperLayer; decide) (by unfold WellFormedHits; decide)).1
     threeHitsCand (by decide)⟩

/-! ## Theorems: the watermark and the growth of the output list -/

/-- Nothing appended: the relation `GrowsBy` is reflexive. -/
theorem growsBy_refl (env : Env) (sl : DTSuperLayer) (G : List AssPoint → Prop)
    (a : BuildState) : GrowsBy env sl G a a :=
  ⟨Nat.le_refl _, [], by simp, List.Pairwise.nil, fun x hx => absurd hx (List.not_mem_nil _)⟩

/-- Two growths in a row are a growth: the relation `GrowsBy` is transitive. -/
theorem growsBy_trans (env : Env) (sl : DTSuperLayer) (G : List AssPoint → Prop)
    (a b c : BuildState) (h1 : GrowsBy env sl G a b) (h2 : GrowsBy env sl G b c) :
    GrowsBy env sl G a c := by
  obtain ⟨hm1, seqs1, hr1, hp1, hb1⟩ := h1
  obtain ⟨hm2, seqs2, hr2, hp2, hb2⟩ := h2
  refine ⟨Nat.le_trans hm1 hm2, seqs1 ++ seqs2, ?_, ?_, ?_⟩
  · rw [hr2, hr1, List.map_append, List.append_assoc]
  · rw [List.pairwise_append]
    refine ⟨hp1, hp2, ?_⟩
    intro x hx y hy
    exact Nat.le_trans (hb1 x hx).2.1 (hb2 y hy).1
  · intro x hx
    rcases List.mem_append.mp hx with h | h
    · exact ⟨(hb1 x h).1, Nat.le_trans (hb1 x h).2.1 hm2, (hb1 x h).2.2⟩
    · exact ⟨Nat.le_trans hm1 (hb2 x h).1, (hb2 x h).2.1, (hb2 x h).2.2⟩

/-- The leaf step grows the output list by at most the trial candidate of the
association sequence, which is at least as long as the watermark before and at
most as long as the watermark after. -/
theorem addHitsLeaf_growsBy (env : Env) (sl : DTSuperLayer) (G : List AssPoint → Prop)
    (s : SearchState) (hG : G s.assHits) :
    GrowsBy env sl G s.out (addHitsLeaf env sl s).out := by
  rw [addHitsLeaf_eq]
  by_cases h1 : s.assHits.length < s.maxfound
  · rw [if_pos h1]
    exact growsBy_refl env sl G _
  · rw [if_neg h1]
    by_cases h2 : (fitWithT0 env sl s.assHits).seg = none
    · rw [if_pos h2]
      exact growsBy_refl env sl G _
    · rw [if_neg h2]
      by_cases h3 : (trialCand env sl s.assHits).good = false
      · rw [if_pos h3]
        exact growsBy_refl env sl G _
      · rw [if_neg h3]
        by_cases hc : checkDoubleCandidatesLoop (trialCand env sl s.assHits) s.result = true
        · refine ⟨Nat.le_max_left _ _, [s.assHits], ?_, List.pairwise_singleton _ _, ?_⟩
          · show (if _ then _ else _) = _
            rw [if_pos hc]
            rfl
          · intro x hx
            rw [List.mem_singleton] at hx
            subst hx
            exact ⟨Nat.le_of_not_lt h1, Nat.le_max_right _ _, hG⟩
        · refine ⟨Nat.le_max_left _ _, [], ?_, List.Pairwise.nil, ?_⟩
          · show (if _ then _ else _) = _
            rw [if_neg hc]
            simp [SearchState.out]
          · intro x hx
            exact absurd hx (List.not_mem_nil _)

/-- Pushing a pool hit and shrinking the pool keeps the hits in play distinct. -/
theorem distinctHits_step (hit : DTHitPairForFit) (rest : List DTHitPairForFit)
    (s : SearchState) (side : DTCellSide) (h : DistinctHits (hit :: rest) s) :
    DistinctHits (nextPool hit rest) (s.push (hit, side)) := by
  unfold DistinctHits at *
  have hsub : ((s.assHits.map (fun a => a.1.ptr) ++ [hit.ptr]) ++
      (rest.filter (fun tmpHit => geometryFilter tmpHit.id hit.id)).map (fun h => h.ptr)).Sublist
      (s.assHits.map (fun a => a.1.ptr) ++ (hit :: rest).map (fun h => h.ptr)) := by
    simp only [List.map_cons, List.append_assoc, List.singleton_append]
    exact List.Sublist.append (List.Sublist.refl _)
      (List.Sublist.cons₂ _ (List.Sublist.map _ (List.filter_sublist _)))
  have hnd := h.sublist hsub
  have hperm : ((s.assHits.map (fun a => a.1.ptr) ++ [hit.ptr]) ++
      ((rest.filter (fun tmpHit => geometryFilter tmpHit.id hit.id)).reverse).map
        (fun h => h.ptr)).Perm
      ((s.assHits.map (fun a => a.1.ptr) ++ [hit.ptr]) ++
      (rest.filter (fun tmpHit => geometryFilter tmpHit.id hit.id)).map (fun h => h.ptr)) :=
    List.Perm.append_left _ ((List.reverse_perm _).map _)
  have hgoal := hperm.nodup_iff.mpr hnd
  show ((s.assHits ++ [(hit, side)]).map (fun a => a.1.ptr) ++
    (nextPool hit rest).map (fun h => h.ptr)).Nodup
  rw [List.map_append]
  exact hgoal

/-- Dropping the first pool hit keeps the hits in play distinct. -/
theorem distinctHits_tail (hit : DTHitPairForFit) (rest : List DTHitPairForFit)
    (s : SearchState) (h : DistinctHits (hit :: rest) s) : DistinctHits rest s := by
  unfold DistinctHits at *
  apply h.sublist
  exact List.Sublist.append (List.Sublist.refl _) (List.Sublist.cons _ (List.Sublist.refl _))

/-- The trial candidate of a sequence of distinct hits has as many association
points as the sequence. -/
theorem trialCand_nHits (env : Env) (sl : DTSuperLayer) (a : List AssPoint)
    (h : (a.map (fun p => p.1.ptr)).Nodup) : (trialCand env sl a).nHits = a.length := by
  have hp : (([] : List AssPoint) ++ a).Pairwise (fun p q => p.1.ptr ≠ q.1.ptr) := by
    rw [List.nil_append]
    exact List.pairwise_map.mp h
  show (AssPointCont.insertRange [] a).length = a.length
  rw [insertRange_eq_append a [] hp, List.nil_append]

/-- Every call of `addHits`, at any recursion budget, entered with distinct
hits in play grows the output list by trial candidates of sequences of
distinct hits, of non-decreasing lengths between the watermark before and the
watermark after. -/
theorem addHitsAux_growsBy (env : Env) (sl : DTSuperLayer) (fuel : Nat)
    (hits : List DTHitPairForFit) (s : SearchState) :
    GrowsBy env sl (fun _ => True) s.out (addHitsAux env sl fuel hits s).out ∧
    (DistinctHits hits s →
      GrowsBy env sl (fun a => (a.map (fun p => p.1.ptr)).Nodup) s.out
        (addHitsAux env sl fuel hits s).out) := by
  constructor
  · exact addHitsAux_rel env sl (fun _ _ => True) (GrowsBy env sl (fun _ => True))
      (growsBy_refl env sl _) (growsBy_trans env sl _)
      (fun _ _ _ _ _ => trivial) (fun _ _ _ _ => trivial) (fun _ _ _ _ _ _ => trivial)
      (fun t _ => addHitsLeaf_growsBy env sl _ t trivial) fuel hits s trivial
  · intro hd
    exact addHitsAux_rel env sl DistinctHits
      (GrowsBy env sl (fun a => (a.map (fun p => p.1.ptr)).Nodup))
      (growsBy_refl env sl _) (growsBy_trans env sl _)
      distinctHits_step distinctHits_tail
      (fun pool t u hI _ ha => by
        unfold DistinctHits at *
        rw [ha]
        exact hI)
      (fun t hI => addHitsLeaf_growsBy env sl _ t (by
        unfold DistinctHits at hI
        simpa using hI)) fuel hits s hd

/-- The seed configuration of `buildSegments` on a hit list of distinct
objects has distinct hits in play. -/
theorem distinctHits_seed (hits before after : List DTHitPairForFit)
    (firstHit lastHit : DTHitPairForFit) (firstLR lastLR : DTCellSide) (maxfound : Nat)
    (res : List DTSegmentCand) (hnd : (hits.map (fun h => h.ptr)).Nodup)
    (hsplit : hits = before ++ firstHit :: after) (hin : lastHit ∈ after) :
    DistinctHits (seedPool firstHit lastHit after)
      { assHits := [(firstHit, firstLR), (lastHit, lastLR)], maxfound := maxfound,
        result := res } := by
  rw [hsplit, List.map_append, List.map_cons] at hnd
  have hnd2 := (List.nodup_append.mp hnd).2.1
  obtain ⟨hfirst, hafter⟩ := List.nodup_cons.mp hnd2
  have hpool_sub : (seedPool firstHit lastHit after).Sublist after := by
    unfold seedPool
    exact (List.filter_sublist _).trans (List.takeWhile_sublist _)
  have hpool_nd : ((seedPool firstHit lastHit after).map (fun h => h.ptr)).Nodup :=
    hafter.sublist (hpool_sub.map _)
  have hlast : lastHit.ptr ∉ (seedPool firstHit lastHit after).map (fun h => h.ptr) := by
    intro hmem
    obtain ⟨x, hx, hxp⟩ := List.mem_map.mp hmem
    unfold seedPool at hx
    have hx2 := (List.mem_filter.mp hx).1
    have := List.mem_takeWhile_imp hx2
    simp only [bne_iff_ne, ne_eq] at this
    exact this hxp
  have hfirst2 : firstHit.ptr ∉ lastHit.ptr :: (seedPool firstHit lastHit after).map
      (fun h => h.ptr) := by
    intro hmem
    rcases List.mem_cons.mp hmem with h | h
    · exact hfirst (h ▸ List.mem_map_of_mem _ hin)
    · exact hfirst ((hpool_sub.map _).subset h)
  show ([(firstHit, firstLR), (lastHit, lastLR)].map (fun a => a.1.ptr) ++
    (seedPool firstHit lastHit after).map (fun h => h.ptr)).Nodup
  simp only [List.map_cons, List.map_nil, List.cons_append, List.nil_append]
  exact List.nodup_cons.mpr ⟨hfirst2, List.nodup_cons.mpr ⟨hlast, hpool_nd⟩⟩

/-- C21: across a call of `addHits`, recursive calls included, the watermark
`maxfound` never decreases and the output list only grows by appending: the
list on entry is an initial segment of the list on return, at any recursion
budget. The candidates appended are the trial candidates of association
sequences whose lengths never decrease in the order of appending and are at
least the watermark on entry; when the hits in play are distinct objects, as
in every top-level call `buildSegments` makes on a hit list of distinct
objects, each appended candidate has at least as many association points as
every candidate appended before it in that call and at least as many as the
watermark on entry. -/
theorem addHits_watermark_and_growth (env : Env) (sl : DTSuperLayer)
    (hits : List DTHitPairForFit) (s : SearchState) :
    s.maxfound ≤ (addHits env sl hits s).maxfound ∧
    s.result <+: (addHits env sl hits s).result ∧
    (addHits env sl hits s).result = s.result ++ appendedCands env sl hits s ∧
    (∃ seqs : List (List AssPoint),
      appendedCands env sl hits s = seqs.map (trialCand env sl) ∧
      seqs.Pairwise (fun x y => x.length ≤ y.length) ∧
      ∀ x ∈ seqs, s.maxfound ≤ x.length ∧ x.length ≤ (addHits env sl hits s).maxfound) ∧
    (DistinctHits hits s →
      (appendedCands env sl hits s).Pairwise (fun c d => c.nHits ≤ d.nHits) ∧
      ∀ c ∈ appendedCands env sl hits s,
        s.maxfound ≤ c.nHits ∧ c.nHits ≤ (addHits env sl hits s).maxfound) ∧
    (∀ (fuel : Nat) (pool : List DTHitPairForFit) (t : SearchState),
      t.maxfound ≤ (addHitsAux env sl fuel pool t).maxfound ∧
      t.result <+: (addHitsAux env sl fuel pool t).result) ∧
    (∀ (all before after : List DTHitPairForFit) (firstHit lastHit : DTHitPairForFit)
      (firstLR lastLR : DTCellSide) (res : List DTSegmentCand),
      (all.map (fun h => h.ptr)).Nodup → all = before ++ firstHit :: after →
      lastHit ∈ after →
      DistinctHits (seedPool firstHit lastHit after)
        { assHits := [(firstHit, firstLR), (lastHit, lastLR)], maxfound := 3,
          result := res }) := by
  obtain ⟨hm, seqs, hr, hp, hb⟩ := (addHitsAux_growsBy env sl (hits.length + 1) hits s).1
  have hr2 : (addHits env sl hits s).result = s.result ++ seqs.map (trialCand env sl) := hr
  have hm2 : s.maxfound ≤ (addHits env sl hits s).maxfound := hm
  have happ : ∀ l : List DTSegmentCand, (addHits env sl hits s).result = s.result ++ l →
      appendedCands env sl hits s = l := by
    intro l hl
    unfold appendedCands
    rw [hl, List.drop_left]
  refine ⟨hm2, ⟨_, hr2.symm⟩, ?_, ⟨seqs, happ _ hr2, hp, ?_⟩, ?_, ?_, ?_⟩
  · rw [happ _ hr2]
    exact hr2
  · intro x hx
    exact ⟨(hb x hx).1, (hb x hx).2.1⟩
  · intro hd
    obtain ⟨_, seqs2, hr3, hp3, hb3⟩ := (addHitsAux_growsBy env sl (hits.length + 1) hits s).2 hd
    have hr4 : (addHits env sl hits s).result = s.result ++ seqs2.map (trialCand env sl) := hr3
    have hsize : ∀ x ∈ seqs2, (trialCand env sl x).nHits = x.length :=
      fun x hx => trialCand_nHits env sl x (hb3 x hx).2.2
    rw [happ _ hr4]
    constructor
    · rw [List.pairwise_map]
      apply List.Pairwise.imp_of_mem _ hp3
      intro x y hx hy hxy
      rw [hsize x hx, hsize y hy]
      exact hxy
    · intro c hc
      obtain ⟨x, hx, hxc⟩ := List.mem_map.mp hc
      rw [← hxc, hsize x hx]
      exact ⟨(hb3 x hx).1, (hb3 x hx).2.1⟩
  · intro fuel pool t
    obtain ⟨hmt, seqst, hrt, _, _⟩ := (addHitsAux_growsBy env sl fuel pool t).1
    exact ⟨hmt, ⟨_, hrt.symm⟩⟩
  · intro all before after firstHit lastHit firstLR lastLR res hnd hsplit hin
    exact distinctHits_seed all before after firstHit lastHit firstLR lastLR 3 res hnd hsplit hin

/-- Witness of `addHits_watermark_and_growth`: the seed pair of layers 1 and 4
with the hit of layer 2 in the pool. -/
theorem addHits_watermark_and_growth_witness :
    DistinctHits [hitAt 1 2 5] seedState ∧
    ((appendedCands (constEnv 1 1) sl1 [hitAt 1 2 5] seedState).Pairwise
        (fun c d => c.nHits ≤ d.nHits) ∧
      ∀ c ∈ appendedCands (constEnv 1 1) sl1 [hitAt 1 2 5] seedState,
        seedState.maxfound ≤ c.nHits ∧
        c.nHits ≤ (addHits (constEnv 1 1) sl1 [hitAt 1 2 5] seedState).maxfound) :=
  ⟨by unfold DistinctHits; decide,
   (addHits_watermark_and_growth (constEnv 1 1) sl1 [hitAt 1 2 5] seedState).2.2.2.2.1
     (by unfold DistinctHits; decide)⟩

end DTMeantimer
